import Mathlib

/-!
Verification development for the auto-journal core scheduler (`src/core.ts`).

The embedding models the plugin's `Core` class: `run`, `getNoteTemplateContents`,
`createDailyNote`, `createMonthlyNote`, `createNewFile` and `newDate`, together
with the narrow slice of its collaborators that the code observes:
the vault (file/folder store with fault injection for the store's possible
rejections), the notification channel (a list of emitted messages), the
moment-style date formatting for the format tokens the settings use, and the
external variable-substitution engine (an opaque function in the environment).

JavaScript string operations (`split`, `trim`, `startsWith`, `endsWith`,
`includes`, first-occurrence `replace`) are modelled by explicit functions on
character lists below, with JS semantics.
-/

set_option maxRecDepth 100000

namespace AutoJournal


/-! ### JS-style string helpers -/

/-- Whitespace test used by the model of `String.prototype.trim`. -/
def isWS (c : Char) : Bool := c = ' ' || c = '\t' || c = '\n' || c = '\r'

/-- Model of JS `s.trim()`: strip whitespace from both ends. -/
def jsTrim (s : String) : String :=
  ⟨((s.toList.dropWhile isWS).reverse.dropWhile isWS).reverse⟩

/-- Model of JS `s.split(c)[0]` for a one-character separator: the characters
before the first occurrence of `c`. -/
def firstSeg (s : String) (c : Char) : String :=
  ⟨s.toList.takeWhile (fun x => x ≠ c)⟩

/-- The characters after the last occurrence of `c` (the whole string when `c`
does not occur). -/
def lastSeg (s : String) (c : Char) : String :=
  ⟨(s.toList.reverse.takeWhile (fun x => x ≠ c)).reverse⟩

/-- Model of JS `s.split(c)` for a one-character separator (full split). -/
def splitCharL (c : Char) : List Char → List (List Char)
  | [] => [[]]
  | x :: xs =>
    match splitCharL c xs with
    | [] => [[]]
    | h :: t => if x = c then [] :: h :: t else (x :: h) :: t

/-- String-level full split on a one-character separator. -/
def splitChar (s : String) (c : Char) : List String :=
  (splitCharL c s.toList).map (fun l => ⟨l⟩)

/-- Model of JS `s.startsWith(pre)`. -/
def jsStartsWith (s pre : String) : Bool := pre.toList.isPrefixOf s.toList

/-- Model of JS `s.endsWith(suf)`. -/
def jsEndsWith (s suf : String) : Bool := suf.toList.isSuffixOf s.toList

/-- Model of JS `s.slice(1)`. -/
def dropFirstChar (s : String) : String := ⟨s.toList.drop 1⟩

/-- Substring occurrence test on character lists (JS `includes`). -/
def containsL : List Char → List Char → Bool
  | [], pat => pat.isEmpty
  | c :: cs, pat => pat.isPrefixOf (c :: cs) || containsL cs pat

/-- Model of JS `s.includes(pat)`. -/
def jsIncludes (s pat : String) : Bool := containsL s.toList pat.toList

/-- First-occurrence replacement on character lists (JS `s.replace(pat, rep)`
with a string pattern). -/
def jsReplaceFirstL : List Char → List Char → List Char → List Char
  | [], pat, rep => if pat.isEmpty then rep else []
  | c :: cs, pat, rep =>
    if pat.isPrefixOf (c :: cs) then rep ++ (c :: cs).drop pat.length
    else c :: jsReplaceFirstL cs pat rep

/-- Model of JS `s.replace(pat, rep)` (first occurrence, literal pattern). -/
def jsReplaceFirst (s pat rep : String) : String :=
  ⟨jsReplaceFirstL s.toList pat.toList rep.toList⟩

/-! ### Decimal rendering and parsing of naturals -/

/-- The decimal digit characters. -/
def digitChar : Nat → Char
  | 0 => '0' | 1 => '1' | 2 => '2' | 3 => '3' | 4 => '4'
  | 5 => '5' | 6 => '6' | 7 => '7' | 8 => '8' | _ => '9'

/-- Fuel-driven most-significant-first decimal digits of `n` (empty for 0). -/
def natDigsAux : Nat → Nat → List Nat
  | 0, _ => []
  | fuel + 1, n => if n = 0 then [] else natDigsAux fuel (n / 10) ++ [n % 10]

/-- Most-significant-first decimal digits of `n` (empty for 0). -/
def natDigs (n : Nat) : List Nat := natDigsAux n n

/-- Decimal rendering of a natural number. -/
def natStr (n : Nat) : String :=
  if n = 0 then "0" else ⟨(natDigs n).map digitChar⟩

/-- Numeric value of a digit string: models the numeric fields moment extracts
when parsing a `"YYYY-MM-DD"` string built by `newDate`. -/
def parseNatStr (s : String) : Nat :=
  s.toList.foldl (fun a c => 10 * a + (c.toNat - 48)) 0

/-- Two-digit zero-padded rendering (moment token `MM` / `DD`). -/
def pad2 (n : Nat) : String := if n < 10 then "0" ++ natStr n else natStr n

/-- Four-digit zero-padded rendering (moment token `YYYY`). -/
def pad4 (n : Nat) : String :=
  if n < 10 then "000" ++ natStr n
  else if n < 100 then "00" ++ natStr n
  else if n < 1000 then "0" ++ natStr n
  else natStr n

/-! ### Path utilities

Modelled from the spec: the repository's `utils/path` module (`join`,
`dirname`, `basename`, `fileNameNoExtension`) is not under `src/`; the spec
describes artifact paths as root-folder-relative slash-separated paths and the
context label as "the artifact's name without extension", so the standard
node-style semantics on clean paths are used. -/

/-- Modelled from the spec: `join` from the missing `utils/path` — joins two
path fragments with a single separator, dropping empty fragments. -/
def pjoin (a b : String) : String :=
  if a = "" then b else if b = "" then a else a ++ "/" ++ b

/-- Modelled from the spec: `dirname` from the missing `utils/path` — the part
of the path before the last `/` (empty when there is no `/`). -/
def dirname (s : String) : String :=
  ⟨(((s.toList.reverse.dropWhile (fun x => x ≠ '/')).drop 1)).reverse⟩

/-- Modelled from the spec: `basename` from the missing `utils/path` — the
last path segment, extension included. -/
def pbasename (s : String) : String := lastSeg s '/'

/-- Strip the extension (everything from the last `.` on) from a name that
contains a `.`; otherwise return it unchanged. -/
def stripExt (s : String) : String :=
  if s.toList.contains '.' then
    ⟨((s.toList.reverse.dropWhile (fun x => x ≠ '.')).drop 1).reverse⟩
  else s

/-- Modelled from the spec: `fileNameNoExtension` from the missing
`utils/path` — the artifact's name without folder part or extension. -/
def fileNameNoExtension (s : String) : String := stripExt (pbasename s)

/-! ### Calendar: a timezone-resolved instant, moment-style formatting -/

/-- A moment instant resolved in the configured timezone: calendar fields plus
the minute of the day (`newDate()` carries the wall-clock time; dates built
from `(year, month, day)` sit at minute 0). Month is 1-based as in the
`YYYY-MM-DD` strings the code builds; moment's 0-based `.month()` accessor is
`month0` below. -/
structure Moment where
  year : Nat
  month : Nat
  day : Nat
  minute : Nat
  deriving Repr, DecidableEq

/-- Moment's 0-based month accessor (`.month()` / `.get("month")`). -/
def Moment.month0 (m : Moment) : Nat := m.month - 1

/-- Gregorian leap-year test. -/
def isLeap (y : Nat) : Bool := y % 4 = 0 && (y % 100 ≠ 0 || y % 400 = 0)

/-- Days in a month of the Gregorian calendar (moment `daysInMonth`). -/
def daysInMonth (y m : Nat) : Nat :=
  if m = 2 then (if isLeap y then 29 else 28)
  else if m = 4 || m = 6 || m = 9 || m = 11 then 30
  else 31

/-- Day of week, 0 = Sunday (Sakamoto's congruence, written without
subtraction: `-x ≡ 6x [MOD 7]`). -/
def dayOfWeek (y m d : Nat) : Nat :=
  let t := [0, 3, 2, 5, 0, 3, 5, 1, 4, 6, 2, 4]
  let y' := if m < 3 then y - 1 else y
  (y' + y' / 4 + 6 * (y' / 100) + y' / 400 + t.getD (m - 1) 0 + d) % 7

/-- English weekday name of a day-of-week index (moment token `dddd`). -/
def weekdayName : Nat → String
  | 0 => "Sunday" | 1 => "Monday" | 2 => "Tuesday" | 3 => "Wednesday"
  | 4 => "Thursday" | 5 => "Friday" | 6 => "Saturday" | _ => "Sunday"

/-- Moment `.add(1, "minute")`, with calendar rollover. -/
def addOneMinute (m : Moment) : Moment :=
  if m.minute + 1 < 1440 then { m with minute := m.minute + 1 }
  else if m.day < daysInMonth m.year m.month then
    { m with minute := 0, day := m.day + 1 }
  else if m.month < 12 then
    { m with minute := 0, day := 1, month := m.month + 1 }
  else { year := m.year + 1, month := 1, day := 1, minute := 0 }

/-- A moment format pattern, tokenized: the tokens the settings' patterns are
built from (`YYYY`, `MM`, `DD`, `M`, `D`, `dddd`) plus bracket-escaped /
separator literals. -/
inductive FmtTok where
  | YYYY | MM | DD | M | D | dddd
  | lit (s : String)
  deriving Repr, DecidableEq

/-- A format pattern is a token sequence. -/
abbrev Fmt := List FmtTok

/-- Render one format token at an instant. -/
def fmtTok (dt : Moment) : FmtTok → String
  | .YYYY => pad4 dt.year
  | .MM => pad2 dt.month
  | .DD => pad2 dt.day
  | .M => natStr dt.month
  | .D => natStr dt.day
  | .dddd => weekdayName (dayOfWeek dt.year dt.month dt.day)
  | .lit s => s

/-- Moment `format`: render a pattern at an instant — the concatenation of
the token renderings. -/
def fmt (dt : Moment) : Fmt → String
  | [] => ""
  | t :: rest => fmtTok dt t ++ fmt dt rest

/-- The `"YYYY-MM-DD"` pattern used by the prefer-latest comparison. -/
def ymdFmt : Fmt := [.YYYY, .lit "-", .MM, .lit "-", .DD]

/-- A calendar date at minute 0, as produced by `newDate(year, month, day)`
(the code builds a zero-padded `"YYYY-MM-DD"` string and parses it back; the
net effect on the fields the code reads is recorded directly). -/
def mkMoment (y m d : Nat) : Moment := ⟨y, m, d, 0⟩

/-! ### Settings, vault, state, environment -/

/-- The `BackFillOptions` enumeration from `settings/settings`. -/
inductive BackFillOptions where
  | NONE | MONTH | YEAR
  deriving Repr, DecidableEq

/-- The slice of `AutoJournalSettings` the core reads. Format patterns are
tokenized (`Fmt`); everything else is as in the source. The timezone field is
not modelled separately: `Env.now` is already the timezone-resolved instant
`newDate()` returns. -/
structure Settings where
  yearFormat : Fmt
  monthFormat : Fmt
  dayFormat : Fmt
  rootFolder : String
  monthlyNotesFolderName : String
  dailyNotesEnabled : Bool
  monthlyNotesEnabled : Bool
  dailyNotesBackfill : BackFillOptions
  monthlyNotesBackfill : BackFillOptions
  dailyNotesTemplateFile : String
  monthlyNotesTemplateFile : String
  monthlyNotesDayOfMonth : Nat
  useTodayForLatestNote : Bool
  shouldTemplateDate : Bool
  templateDateToken : String
  templateDateFormat : Fmt
  showDebugNotifications : Bool

/-- `this.dailyFileFormat`, computed in `run`:
`` `${yearFormat}/${monthFormat}/${dayFormat} - dddd` ``. -/
def dailyFileFormat (s : Settings) : Fmt :=
  s.yearFormat ++ [.lit "/"] ++ s.monthFormat ++ [.lit "/"] ++ s.dayFormat
    ++ [.lit " - ", .dddd]

/-- `this.monthlyFileFormat`, computed in `run`:
`` `${yearFormat}/[${monthlyNotesFolderName}]/${monthFormat} -` `` (the bracketed
folder name is a moment literal). -/
def monthlyFileFormat (s : Settings) : Fmt :=
  s.yearFormat ++ [.lit "/", .lit s.monthlyNotesFolderName, .lit "/"]
    ++ s.monthFormat ++ [.lit " -"]

/-- An Obsidian `TFile` as the core observes it: full vault path, basename
(file name without extension), the parent folder's name when resolvable, and
the file's text content (for template reads). -/
structure TFile where
  path : String
  basename : String
  parentName : Option String
  content : String
  deriving Repr, DecidableEq

/-- The vault: files and folders, plus fault-injection sets recording which
store operations the external store rejects (`createFolder`, `create`,
`read`), so the guarded error paths of the core are part of the model. -/
structure Vault where
  files : List TFile
  folders : List String
  failCreates : List String
  failFolders : List String
  failReads : List String
  deriving Repr, DecidableEq

/-- Program state threaded through the core: the vault and the messages
emitted on the notification channel. -/
structure St where
  vault : Vault
  notices : List String
  deriving Repr, DecidableEq

/-- External collaborators: the variable-substitution engine
(`replaceNewFileVars`, a function of template text and the file name without
extension) and the timezone-resolved current instant (`newDate()` with no
arguments). -/
structure Env where
  replaceVars : String → String → String
  now : Moment

/-- An entry of the vault's abstract-file index: a file or a folder. -/
inductive AbstractFile where
  | file (f : TFile)
  | folder (p : String)
  deriving Repr, DecidableEq

/-- `app.vault.getAbstractFileByPath`: the file at the path, else the folder
at the path, else nothing. -/
def lookupAF (v : Vault) (p : String) : Option AbstractFile :=
  match v.files.find? (fun f => f.path == p) with
  | some f => some (.file f)
  | none => if v.folders.contains p then some (.folder p) else none

/-- Basename (without extension) Obsidian derives for a created file. -/
def obsBasename (p : String) : String := stripExt (lastSeg p '/')

/-- Parent-folder name Obsidian derives for a created file. -/
def obsParentName (p : String) : Option String :=
  let d := dirname p
  if d = "" then none else some (lastSeg d '/')

/-- The `TFile` record resulting from creating a file at a path. -/
def mkTFile (p content : String) : TFile :=
  ⟨p, obsBasename p, obsParentName p, content⟩

/-- `app.vault.create`: rejects when the path is already taken by a file or
folder, or when the store rejects the write (fault injection); otherwise
appends the new file. -/
def vaultCreate (v : Vault) (p content : String) : Except String Vault :=
  if v.files.any (fun f => f.path == p) || v.folders.contains p then
    .error ("File already exists: " ++ p)
  else if v.failCreates.contains p then
    .error ("Create failed: " ++ p)
  else .ok { v with files := v.files ++ [mkTFile p content] }

/-- `app.vault.createFolder`: rejects when the store rejects the creation
(fault injection) or the path is taken; otherwise appends the folder. -/
def vaultCreateFolder (v : Vault) (p : String) : Except String Vault :=
  if v.failFolders.contains p then .error ("Folder create failed: " ++ p)
  else if v.folders.contains p || v.files.any (fun f => f.path == p) then
    .error ("Folder already exists: " ++ p)
  else .ok { v with folders := v.folders ++ [p] }

/-- `app.vault.read`: the file's content, unless the store rejects the read
(fault injection). -/
def vaultRead (v : Vault) (f : TFile) : Except String String :=
  if v.failReads.contains f.path then .error ("Read failed: " ++ f.path)
  else .ok f.content

/-- Modelled from the spec: `errorNotification` from the missing `utils/misc`
— reports a message on the notification channel; the debug flag only gates
display verbosity, not whether the channel receives the message. Plain
`new Notice(...)` messages go through the same channel. -/
def notify (st : St) (msg : String) : St :=
  { st with notices := st.notices ++ [msg] }

/-! ### The core: template lookup, file materializer, iterators, run -/

/-- The duplicate-detection test: an artifact matches a period label when the
trimmed part of its basename before the first `-` equals the label. -/
def labelMatch (lbl : String) (f : TFile) : Bool :=
  jsTrim (firstSeg f.basename '-') == lbl

/-- `getNoteTemplateContents`: empty template path yields the empty template;
a configured path is looked up as `path + ".md"` — not found or a folder emit
a notice and yield `none` (the cadence aborts); a file is read (the read can
reject, which escapes to the caller). -/
def getNoteTemplateContents (env : Env) (s : Settings) (isDaily : Bool)
    (st : St) : Except String (Option String) × St :=
  let templatePath :=
    if isDaily then s.dailyNotesTemplateFile else s.monthlyNotesTemplateFile
  if templatePath = "" then (.ok (some ""), st)
  else
    match lookupAF st.vault (templatePath ++ ".md") with
    | none =>
      (.ok none, notify st ((if isDaily then "daily" else "monthly")
        ++ " notes template file not found in " ++ templatePath))
    | some (.file f) =>
      match vaultRead st.vault f with
      | .error e => (.error e, st)
      | .ok c => (.ok (some c), st)
    | some (.folder _) =>
      (.ok none, notify st ("template file " ++ templatePath
        ++ " is a directory, not a file"))

/-- One step of the cascade loop of `createNewFile`: create the accumulated
prefix when it does not exist yet; report a rejected creation on the
notification channel (non-fatal). -/
def cascadeStep (newFilePath cascadePath : String) (st : St) : St :=
  if (lookupAF st.vault cascadePath).isNone then
    match vaultCreateFolder st.vault cascadePath with
    | .ok v => { st with vault := v }
    | .error _ =>
      notify st ("Error creating folder, " ++ cascadePath ++ " for "
        ++ newFilePath)
  else st

/-- The cascade loop of `createNewFile`: walk the folder path segments
root-to-leaf, accumulating the path prefix; create each missing prefix; a
creation failure is reported (non-fatal) and the walk continues. -/
def cascadeGo (newFilePath : String) :
    List String → String → St → St
  | [], _, st => st
  | seg :: rest, prevPath, st =>
    cascadeGo newFilePath rest (pjoin prevPath seg)
      (cascadeStep newFilePath (pjoin prevPath seg) st)

/-- `newFilePath` normalization in `createNewFile`: ensure the `.md`
extension and the root-folder prefix. -/
def normPath (s : Settings) (p : String) : String :=
  let p1 := if jsEndsWith p ".md" then p else p ++ ".md"
  if jsStartsWith p1 s.rootFolder then p1 else pjoin s.rootFolder p1

/-- The content `createNewFile` writes: the date token is replaced first
(when enabled and present), then the external variable-substitution engine
runs on the result. -/
def renderContent (env : Env) (s : Settings) (createdDate : Moment)
    (templateContents : String) (contextName : String) : String :=
  let t :=
    if s.shouldTemplateDate && jsIncludes templateContents s.templateDateToken
    then jsReplaceFirst templateContents s.templateDateToken
      (fmt createdDate s.templateDateFormat)
    else templateContents
  env.replaceVars t contextName

/-- Strip a leading `/` (the `folderPath.startsWith("/")` normalization). -/
def stripSlash (p : String) : String :=
  if jsStartsWith p "/" then dropFirstChar p else p

/-- The folder-ensuring step of `createNewFile`: when the target folder is
missing, cascade-create its hierarchy. -/
def ensureFolders (newFilePath folderPath : String) (st : St) : St :=
  if (lookupAF st.vault folderPath).isNone then
    cascadeGo newFilePath (splitChar folderPath '/') "" st
  else st

/-- The folder path `createNewFile` works under: the dirname of the target,
with a leading `/` stripped. -/
def folderPathOf (newFilePath : String) : String :=
  stripSlash (dirname newFilePath)

/-- `createNewFile`: normalize the path, cascade-create the folder hierarchy
when the folder is missing, re-check the listing for an artifact with the same
leading label, substitute tokens, and create the file if absent. A rejected
write escapes as an error (the callers catch it). -/
def createNewFile (env : Env) (s : Settings) (createdDate : Moment)
    (newFilePath0 templateContents : String) (filesInFolder : List TFile)
    (st : St) : Except String String × St :=
  let newFilePath := normPath s newFilePath0
  let st1 := ensureFolders newFilePath (folderPathOf newFilePath) st
  let dayPart := jsTrim (firstSeg (pbasename newFilePath) '-')
  let existingFile := filesInFolder.find? (labelMatch dayPart)
  let contents :=
    renderContent env s createdDate templateContents
      (fileNameNoExtension newFilePath)
  match existingFile with
  | some _ => (.ok newFilePath, st1)
  | none =>
    match vaultCreate st1.vault newFilePath contents with
    | .error e => (.error e, st1)
    | .ok v => (.ok newFilePath, { st1 with vault := v })

/-- The per-period guarded call: `createNewFile(...).catch(errorNotification)`
— a rejection is reported on the notification channel and iteration
continues. -/
def createNewFileCaught (env : Env) (s : Settings) (createdDate : Moment)
    (newFilePath0 templateContents : String) (filesInFolder : List TFile)
    (st : St) : St :=
  match createNewFile env s createdDate newFilePath0 templateContents
      filesInFolder st with
  | (.error e, st') => notify st' e
  | (.ok _, st') => st'

/-- The body of the day loop of `createDailyNote` for one candidate day:
current-month cap at today, duplicate check against the month's listing
snapshot, the NONE-policy past-day skip, the prefer-latest shift, and the
guarded `createNewFile` call. -/
def processDay (env : Env) (s : Settings) (templateContents : String)
    (yearNum monthNumber : Nat) (currentMonth nowMonthLbl : String)
    (filesInFolder : List TFile) (st : St) (day : Nat) : St :=
  let dayDate := mkMoment yearNum (monthNumber + 1) day
  if currentMonth = nowMonthLbl ∧ env.now.day < dayDate.day then st
  else
    let hasFileForDay :=
      filesInFolder.any (labelMatch (fmt dayDate s.dayFormat))
    if hasFileForDay then st
    else if s.dailyNotesBackfill = .NONE ∧ dayDate.day < env.now.day then st
    else
      let createFileDate :=
        if s.useTodayForLatestNote && (fmt env.now ymdFmt == fmt dayDate ymdFmt)
        then addOneMinute env.now else dayDate
      let newFilePath := fmt dayDate (dailyFileFormat s)
      createNewFileCaught env s createFileDate newFilePath templateContents
        filesInFolder st

/-- The body of the month loop of `createDailyNote` for one candidate month:
future-month skip, the NONE/MONTH current-month restriction, the per-month
folder listing snapshot, and the day loop. -/
def processMonth (env : Env) (s : Settings) (templateContents : String)
    (yearNum : Nat) (st : St) (monthNumber : Nat) : St :=
  let dateOfMonth := mkMoment yearNum (monthNumber + 1) 1
  let currentMonth := fmt dateOfMonth s.monthFormat
  if env.now.month0 < monthNumber then st
  else if (s.dailyNotesBackfill = .MONTH ∨ s.dailyNotesBackfill = .NONE)
      ∧ currentMonth ≠ fmt env.now s.monthFormat then st
  else
    let dayOfMonthFilePath := fmt dateOfMonth (dailyFileFormat s) ++ ".md"
    let monthsFolderPath := dirname dayOfMonthFilePath
    let folderPath := stripSlash (pjoin s.rootFolder monthsFolderPath)
    let filesInFolder :=
      st.vault.files.filter (fun f => jsStartsWith f.path folderPath)
    let nowMonthLbl := fmt env.now s.monthFormat
    (List.range' 1 (daysInMonth yearNum (monthNumber + 1))).foldl
      (processDay env s templateContents yearNum monthNumber currentMonth
        nowMonthLbl filesInFolder) st

/-- `createDailyNote`: resolve the template (aborting the cadence on a
missing/non-file template), then walk the twelve months of the current year.
A template-read rejection escapes as an error (caught by `run`). -/
def createDailyNote (env : Env) (s : Settings) (st : St) :
    Except String Unit × St :=
  match getNoteTemplateContents env s true st with
  | (.error e, st') => (.error e, st')
  | (.ok none, st') => (.ok (), st')
  | (.ok (some templateContents), st') =>
    let yearNum := parseNatStr (fmt env.now s.yearFormat)
    (.ok (), (List.range 12).foldl
      (processMonth env s templateContents yearNum) st')

/-- The body of the month loop of `createMonthlyNote` for one candidate
month: future-month skip, the non-YEAR current-month restriction, duplicate
check against the single folder listing snapshot, the not-yet-reached
day-of-month skip, the prefer-latest shift, and the guarded `createNewFile`
call. -/
def processMonthly (env : Env) (s : Settings) (templateContents : String)
    (yearNum : Nat) (filesInFolder : List TFile) (st : St)
    (monthNumber : Nat) : St :=
  let monthDate := mkMoment yearNum (monthNumber + 1) s.monthlyNotesDayOfMonth
  if env.now.month0 < monthNumber then st
  else if s.monthlyNotesBackfill ≠ .YEAR
      ∧ fmt monthDate s.monthFormat ≠ fmt env.now s.monthFormat then st
  else
    let hasFileForMonth :=
      filesInFolder.any (labelMatch (fmt monthDate s.monthFormat))
    if hasFileForMonth then st
    else if env.now.day < s.monthlyNotesDayOfMonth
        ∧ monthNumber = env.now.month0 then st
    else
      let createFileDate :=
        if s.useTodayForLatestNote && (env.now.month0 == monthDate.month0)
            && (env.now.year == monthDate.year)
        then addOneMinute env.now else monthDate
      let newFilePath := fmt monthDate (monthlyFileFormat s)
      createNewFileCaught env s createFileDate newFilePath templateContents
        filesInFolder st

/-- `createMonthlyNote`: resolve the template, take one folder listing
snapshot for the monthly-notes folder (path prefix plus parent-folder-name
refinement), then walk the twelve months. -/
def createMonthlyNote (env : Env) (s : Settings) (st : St) :
    Except String Unit × St :=
  match getNoteTemplateContents env s false st with
  | (.error e, st') => (.error e, st')
  | (.ok none, st') => (.ok (), st')
  | (.ok (some templateContents), st') =>
    let yearNum := parseNatStr (fmt env.now s.yearFormat)
    let dayOfMonthFilePath := fmt env.now (monthlyFileFormat s) ++ ".md"
    let monthlyNotesFolderPath := dirname dayOfMonthFilePath
    let folderPath := stripSlash (pjoin s.rootFolder monthlyNotesFolderPath)
    let filesInFolder :=
      st'.vault.files.filter (fun f =>
        jsStartsWith f.path folderPath &&
          (match f.parentName with
           | some n =>
             if n = "" then true else n == s.monthlyNotesFolderName
           | none => true))
    (.ok (), (List.range 12).foldl
      (processMonthly env s templateContents yearNum filesInFolder) st')

/-- The daily branch of `run`: when enabled, `createDailyNote` with its
rejection caught and reported on the notification channel. -/
def runDailyPhase (env : Env) (s : Settings) (st : St) : St :=
  if s.dailyNotesEnabled then
    match createDailyNote env s st with
    | (.ok _, st') => st'
    | (.error msg, st') => notify st' msg
  else st

/-- The monthly branch of `run`: when enabled, `createMonthlyNote` with its
rejection caught and reported on the notification channel. -/
def runMonthlyPhase (env : Env) (s : Settings) (st : St) : St :=
  if s.monthlyNotesEnabled then
    match createMonthlyNote env s st with
    | (.ok _, st') => st'
    | (.error msg, st') => notify st' msg
  else st

/-- `run`: the orchestrator — the daily branch then the monthly branch, each
wrapped so a rejection is reported on the notification channel and does not
escape. -/
def run (env : Env) (s : Settings) (st : St) : St :=
  runMonthlyPhase env s (runDailyPhase env s st)

/-! ### Derived path notation used by the theorems -/

/-- The root-relative daily path (before normalization) for a calendar day. -/
def dailyRel (s : Settings) (y m d : Nat) : String :=
  fmt (mkMoment y m d) (dailyFileFormat s)

/-- The vault path of the daily artifact for a calendar day. -/
def dailyPathFor (s : Settings) (y m d : Nat) : String :=
  normPath s (dailyRel s y m d)

/-- The root-relative monthly path (before normalization) for a month. -/
def monthlyRel (s : Settings) (y m : Nat) : String :=
  fmt (mkMoment y m s.monthlyNotesDayOfMonth) (monthlyFileFormat s)

/-- The vault path of the monthly artifact for a month. -/
def monthlyPathFor (s : Settings) (y m : Nat) : String :=
  normPath s (monthlyRel s y m)

/-- The paths of the artifacts present in a state. -/
def filePaths (st : St) : List String := st.vault.files.map (fun f => f.path)

/-- The numeric year the iterators work in: `newDate().format(yearFormat)`
parsed back by `newDate(year, ...)`. -/
def yearNumOf (env : Env) (s : Settings) : Nat :=
  parseNatStr (fmt env.now s.yearFormat)

/-! ### Digit-string lemmas -/

/-- Digit characters as a predicate on code points. -/
def isDig (c : Char) : Prop := 48 ≤ c.toNat ∧ c.toNat ≤ 57

instance (c : Char) : Decidable (isDig c) :=
  inferInstanceAs (Decidable (48 ≤ c.toNat ∧ c.toNat ≤ 57))

/-! ### Character classes of rendered fragments -/

/-- `c` does not occur in `s`. -/
def noChar (c : Char) (s : String) : Prop := ∀ x ∈ s.toList, x ≠ c

/-- Every character of `s` is a decimal digit. -/
def allDig (s : String) : Prop := ∀ x ∈ s.toList, isDig x

instance (c : Char) (s : String) : Decidable (noChar c s) :=
  inferInstanceAs (Decidable (∀ x ∈ s.toList, x ≠ c))

instance (s : String) : Decidable (allDig s) :=
  inferInstanceAs (Decidable (∀ x ∈ s.toList, isDig x))

/-! ### Shapes of the rendered paths under the standard format patterns -/

/-- The settings use moment's standard `YYYY` / `MM` / `DD` patterns. -/
def StdFmt (s : Settings) : Prop :=
  s.yearFormat = [.YYYY] ∧ s.monthFormat = [.MM] ∧ s.dayFormat = [.DD]

instance (s : Settings) : Decidable (StdFmt s) :=
  inferInstanceAs (Decidable (_ ∧ _ ∧ _))

/-- The base name (no extension) of the daily artifact of a day, under the
standard patterns. -/
def dayBase (y m d : Nat) : String :=
  pad2 d ++ " - " ++ weekdayName (dayOfWeek y m d)

/-- The base name (no extension) of the monthly artifact of a month, under
the standard patterns. -/
def monthBase (m : Nat) : String := pad2 m ++ " -"

/-! ### State-extension machinery -/

/-- Vault extension: files are only appended, folders only grow, the store's
fault-injection sets are untouched. Every core operation extends its vault. -/
structure VExt (v v' : Vault) : Prop where
  files_ext : ∃ l, v'.files = v.files ++ l
  folders_sub : ∀ p, p ∈ v.folders → p ∈ v'.folders
  fc_eq : v'.failCreates = v.failCreates
  ff_eq : v'.failFolders = v.failFolders
  fr_eq : v'.failReads = v.failReads

/-- State extension: vault extension plus append-only notices. -/
structure SExt (st st' : St) : Prop where
  vext : VExt st.vault st'.vault
  notices_ext : ∃ l, st'.notices = st.notices ++ l

/-- The month folder path the daily iterator scopes its listing to. -/
def dailyMonthFolder (s : Settings) (Y mN : Nat) : String :=
  stripSlash (pjoin s.rootFolder
    (dirname (fmt (mkMoment Y (mN + 1) 1) (dailyFileFormat s) ++ ".md")))

/-- The per-day creation guard facts delivered by one month of the daily
iterator for each file it appends. -/
def DailyNewFile (env : Env) (s : Settings) (Y mN : Nat) (f : TFile) : Prop :=
  ∃ d, 1 ≤ d ∧ d ≤ daysInMonth Y (mN + 1)
    ∧ f.path = dailyPathFor s Y (mN + 1) d
    ∧ (fmt (mkMoment Y (mN + 1) 1) s.monthFormat = fmt env.now s.monthFormat
        → d ≤ env.now.day)
    ∧ (s.dailyNotesBackfill = .NONE → env.now.day ≤ d)

/-! ### Concrete scenario fixtures -/

instance : Inhabited TFile := ⟨⟨"", "", none, ""⟩⟩

/-- The standard settings of the spec's scenarios: `YYYY`/`MM`/`DD` patterns,
empty root folder, `Check-Ins` monthly folder, first-of-month monthly notes,
empty template paths, daily backfill YEAR, monthly backfill NONE. -/
def stdSettings : Settings where
  yearFormat := [.YYYY]
  monthFormat := [.MM]
  dayFormat := [.DD]
  rootFolder := ""
  monthlyNotesFolderName := "Check-Ins"
  dailyNotesEnabled := true
  monthlyNotesEnabled := false
  dailyNotesBackfill := .YEAR
  monthlyNotesBackfill := .NONE
  dailyNotesTemplateFile := ""
  monthlyNotesTemplateFile := ""
  monthlyNotesDayOfMonth := 1
  useTodayForLatestNote := false
  shouldTemplateDate := false
  templateDateToken := "\x7b\x7bdate\x7d\x7d"
  templateDateFormat := [.YYYY, .lit "-", .MM, .lit "-", .DD]
  showDebugNotifications := false

/-- The empty store. -/
def st0 : St := ⟨⟨[], [], [], [], []⟩, []⟩

/-- "Now" of the spec's scenarios: 2024-03-15, 10:00, with an identity
variable-substitution engine. -/
def envA : Env := ⟨fun t _ => t, ⟨2024, 3, 15, 600⟩⟩

/-- Scenario B settings: daily backfill NONE. -/
def sNone : Settings := { stdSettings with dailyNotesBackfill := .NONE }

/-- A configuration with a day-dependent month format (`DD`): the month label
of the first of the month differs from today's label. -/
def sCx : Settings := { stdSettings with monthFormat := [.DD] }

/-- "Now" for the future-creation counterexample: 2024-01-02. -/
def envCx : Env := ⟨fun t _ => t, ⟨2024, 1, 2, 600⟩⟩

/-- Monthly settings under policy YEAR. -/
def sM5 : Settings := { stdSettings with monthlyNotesBackfill := .YEAR }

/-- Monthly settings under policy MONTH. -/
def sMonth : Settings := { stdSettings with monthlyNotesBackfill := .MONTH }

/-- The expected artifact path of Scenario A for a month and day. -/
def dayPathA (m d : Nat) : String :=
  "2024/" ++ pad2 m ++ "/" ++ pad2 d ++ " - "
    ++ weekdayName (dayOfWeek 2024 m d) ++ ".md"

/-- Store state for the cascade witness: the store rejects creating `a/b`. -/
def stC7 : St := ⟨⟨[], [], [], ["a/b"], []⟩, []⟩

/-- Settings with date templating enabled (over Scenario B). -/
def sC8 : Settings := { sNone with shouldTemplateDate := true }

/-- Settings with the prefer-latest option enabled (over Scenario B). -/
def sUse : Settings := { sNone with useTodayForLatestNote := true }

/-- "Now" of the per-period continuation scenario: 2024-01-03. -/
def envC6 : Env := ⟨fun t _ => t, ⟨2024, 1, 3, 600⟩⟩

/-- Settings of the per-period continuation scenario: daily backfill MONTH. -/
def sC6 : Settings := { stdSettings with dailyNotesBackfill := .MONTH }

/-- Store that rejects the write of the January 2 artifact. -/
def stC6 : St := ⟨⟨[], [], ["2024/01/02 - Tuesday.md"], [], []⟩, []⟩

/-- Settings whose daily template path is configured but unreadable. -/
def sT : Settings := { sNone with dailyNotesTemplateFile := "T" }

/-- Store holding the template file `T.md` but rejecting its read. -/
def stT : St := ⟨⟨[⟨"T.md", "T", none, "tpl"⟩], [], [], [], ["T.md"]⟩, []⟩

/-! ### Idempotence machinery: path shapes under a sane root folder -/

/-- A sane root folder: empty, or starting with a character that is neither
`/` nor a digit (so it can never be a prefix of a year-led relative path). -/
def RootOk (r : String) : Prop :=
  r = "" ∨ ∃ c t, r.toList = c :: t ∧ c ≠ '/' ∧ ¬ isDig c

/-- The month folder prefix the daily iterator filters by. -/
def mfPre (s : Settings) (Y m : Nat) : String :=
  pjoin s.rootFolder (pad4 Y ++ "/" ++ pad2 m)

/-- The monthly-notes folder prefix the monthly iterator filters by. -/
def mnPre (s : Settings) (Y : Nat) : String :=
  pjoin s.rootFolder (pad4 Y ++ "/" ++ s.monthlyNotesFolderName)

/-- The parent-folder refinement of the monthly listing filter. -/
def parentOkB (s : Settings) (f : TFile) : Bool :=
  match f.parentName with
  | some n => if n = "" then true else n == s.monthlyNotesFolderName
  | none => true

/-- The store would reject creating a file at this path. -/
def createWouldFail (v : Vault) (p : String) : Prop :=
  p ∈ v.failCreates ∨ (∃ f ∈ v.files, f.path = p) ∨ p ∈ v.folders

/-- The daily iterator has nothing left to do for a candidate day: a pure
skip guard applies, the scoped listing would match its label, or the store
would reject the write. -/
def DayDone (env : Env) (s : Settings) (Y mN d : Nat) (v : Vault) : Prop :=
  ((s.dailyNotesBackfill = .MONTH ∨ s.dailyNotesBackfill = .NONE)
      ∧ pad2 (mN + 1) ≠ pad2 env.now.month)
  ∨ (pad2 (mN + 1) = pad2 env.now.month ∧ env.now.day < d)
  ∨ (s.dailyNotesBackfill = .NONE ∧ d < env.now.day)
  ∨ (∃ f ∈ v.files, jsStartsWith f.path (mfPre s Y (mN + 1)) = true
      ∧ labelMatch (pad2 d) f = true)
  ∨ createWouldFail v (dailyPathFor s Y (mN + 1) d)

/-- The monthly iterator has nothing left to do for a candidate month. -/
def MonthDone (env : Env) (s : Settings) (Y mN : Nat) (v : Vault) : Prop :=
  (s.monthlyNotesBackfill ≠ .YEAR ∧ pad2 (mN + 1) ≠ pad2 env.now.month)
  ∨ (env.now.day < s.monthlyNotesDayOfMonth ∧ mN = env.now.month0)
  ∨ (∃ f ∈ v.files, jsStartsWith f.path (mnPre s Y) = true
      ∧ parentOkB s f = true ∧ labelMatch (pad2 (mN + 1)) f = true)
  ∨ createWouldFail v (monthlyPathFor s Y (mN + 1))

/-! ### Theorems -/

/-! ### List helper lemmas -/

theorem takeWhile_append_stop {α} (p : α → Bool) {l1 : List α} (y : α)
    (l2 : List α) (h1 : ∀ x ∈ l1, p x = true) (hy : p y = false) :
    List.takeWhile p (l1 ++ y :: l2) = l1 := by
  induction l1 with
  | nil => simp [hy]
  | cons a t ih =>
    have ha : p a = true := h1 a (by simp)
    rw [List.cons_append, List.takeWhile_cons_of_pos ha,
      ih (fun x hx => h1 x (by simp [hx]))]

theorem dropWhile_append_stop {α} (p : α → Bool) {l1 : List α} (y : α)
    (l2 : List α) (h1 : ∀ x ∈ l1, p x = true) (hy : p y = false) :
    List.dropWhile p (l1 ++ y :: l2) = y :: l2 := by
  induction l1 with
  | nil => simp [hy]
  | cons a t ih =>
    have ha : p a = true := h1 a (by simp)
    rw [List.cons_append, List.dropWhile_cons_of_pos ha,
      ih (fun x hx => h1 x (by simp [hx]))]

theorem takeWhile_all {α} (p : α → Bool) {l : List α}
    (h : ∀ x ∈ l, p x = true) : List.takeWhile p l = l := by
  induction l with
  | nil => rfl
  | cons a t ih =>
    have ha : p a = true := h a (by simp)
    rw [List.takeWhile_cons_of_pos ha, ih (fun x hx => h x (by simp [hx]))]

theorem dropWhile_all_neg {α} (p : α → Bool) {l : List α}
    (h : ∀ x ∈ l, p x = false) : List.dropWhile p l = l := by
  cases l with
  | nil => rfl
  | cons a t =>
    exact List.dropWhile_cons_of_neg (by simp [h a (by simp)])

theorem natDigsAux_lt10 : ∀ fuel n, ∀ d ∈ natDigsAux fuel n, d < 10 := by
  intro fuel
  induction fuel with
  | zero => intro n d hd; simp [natDigsAux] at hd
  | succ fuel ih =>
    intro n d hd
    by_cases h0 : n = 0
    · simp [natDigsAux, h0] at hd
    · simp only [natDigsAux, if_neg h0, List.mem_append] at hd
      rcases hd with hd | hd
      · exact ih _ _ hd
      · simp at hd; omega

theorem digitChar_isDig {d : Nat} (hd : d < 10) : isDig (digitChar d) := by
  interval_cases d <;> exact ⟨by decide, by decide⟩

theorem digitChar_val {d : Nat} (hd : d < 10) : (digitChar d).toNat - 48 = d := by
  interval_cases d <;> decide

theorem natDigsAux_foldl : ∀ fuel n a, n ≤ fuel →
    (natDigsAux fuel n).foldl (fun a d => 10 * a + d) a
      = a * 10 ^ (natDigsAux fuel n).length + n := by
  intro fuel
  induction fuel with
  | zero => intro n a h; interval_cases n; simp [natDigsAux]
  | succ fuel ih =>
    intro n a h
    by_cases h0 : n = 0
    · simp [natDigsAux, h0]
    · have hdiv : n / 10 ≤ fuel := by
        have : n / 10 < n := Nat.div_lt_self (Nat.pos_of_ne_zero h0) (by omega)
        omega
      simp only [natDigsAux, if_neg h0, List.foldl_append, List.foldl_cons,
        List.foldl_nil, List.length_append, List.length_cons, List.length_nil]
      rw [ih _ a hdiv]
      have hmod := Nat.div_add_mod n 10
      have hpow : 10 ^ (((natDigsAux fuel (n / 10)).length : Nat) + (0 + 1))
          = 10 ^ (natDigsAux fuel (n / 10)).length * 10 := by
        rw [pow_succ]
      have : 10 * (a * 10 ^ (natDigsAux fuel (n / 10)).length + n / 10) + n % 10
          = a * (10 ^ (natDigsAux fuel (n / 10)).length * 10)
            + (10 * (n / 10) + n % 10) := by ring
      rw [this, hmod, hpow]

theorem foldl_parse_map_digitChar (l : List Nat) (hl : ∀ d ∈ l, d < 10) :
    ∀ a, (l.map digitChar).foldl (fun a c => 10 * a + (c.toNat - 48)) a
      = l.foldl (fun a d => 10 * a + d) a := by
  induction l with
  | nil => intro a; rfl
  | cons d t ih =>
    intro a
    simp only [List.map_cons, List.foldl_cons]
    rw [digitChar_val (hl d (by simp)), ih (fun x hx => hl x (by simp [hx]))]

theorem toList_mk (l : List Char) : (String.mk l).toList = l := rfl

theorem parseNatStr_natStr (n : Nat) : parseNatStr (natStr n) = n := by
  by_cases h0 : n = 0
  · subst h0; decide
  · unfold natStr parseNatStr natDigs
    rw [if_neg h0, toList_mk,
      foldl_parse_map_digitChar _ (natDigsAux_lt10 n n),
      natDigsAux_foldl n n 0 (Nat.le_refl n)]
    simp

theorem parseNatStr_cons_zero (l : List Char) :
    parseNatStr ⟨'0' :: l⟩ = parseNatStr ⟨l⟩ := by
  unfold parseNatStr
  rw [toList_mk, toList_mk, List.foldl_cons]
  have h : (10 * 0 + ('0'.toNat - 48) : Nat) = 0 := by decide
  rw [h]

theorem string_eta (s : String) : (⟨s.toList⟩ : String) = s := rfl

theorem parseNatStr_pad2 (n : Nat) : parseNatStr (pad2 n) = n := by
  by_cases h : n < 10
  · unfold pad2
    rw [if_pos h]
    have h2 : ("0" ++ natStr n : String) = ⟨'0' :: (natStr n).toList⟩ := rfl
    rw [h2, parseNatStr_cons_zero, string_eta]
    exact parseNatStr_natStr n
  · unfold pad2
    rw [if_neg h]
    exact parseNatStr_natStr n

theorem parseNatStr_pad4 (n : Nat) : parseNatStr (pad4 n) = n := by
  by_cases h1 : n < 10
  · unfold pad4
    rw [if_pos h1]
    have h2 : ("000" ++ natStr n : String)
        = ⟨'0' :: ('0' :: ('0' :: (natStr n).toList))⟩ := rfl
    rw [h2, parseNatStr_cons_zero, parseNatStr_cons_zero,
      parseNatStr_cons_zero, string_eta]
    exact parseNatStr_natStr n
  · by_cases h2 : n < 100
    · unfold pad4
      rw [if_neg h1, if_pos h2]
      have h3 : ("00" ++ natStr n : String)
          = ⟨'0' :: ('0' :: (natStr n).toList)⟩ := rfl
      rw [h3, parseNatStr_cons_zero, parseNatStr_cons_zero, string_eta]
      exact parseNatStr_natStr n
    · by_cases h3 : n < 1000
      · unfold pad4
        rw [if_neg h1, if_neg h2, if_pos h3]
        have h4 : ("0" ++ natStr n : String) = ⟨'0' :: (natStr n).toList⟩ := rfl
        rw [h4, parseNatStr_cons_zero, string_eta]
        exact parseNatStr_natStr n
      · unfold pad4
        rw [if_neg h1, if_neg h2, if_neg h3]
        exact parseNatStr_natStr n

theorem pad2_injective {a b : Nat} (h : pad2 a = pad2 b) : a = b := by
  have := parseNatStr_pad2 a
  rw [h, parseNatStr_pad2 b] at this
  omega

theorem pad4_injective {a b : Nat} (h : pad4 a = pad4 b) : a = b := by
  have := parseNatStr_pad4 a
  rw [h, parseNatStr_pad4 b] at this
  omega

theorem toList_append (a b : String) :
    (a ++ b).toList = a.toList ++ b.toList := String.data_append a b

theorem isDig_ne {c : Char} (h : isDig c) {d : Char} (hd : d.toNat < 48) :
    c ≠ d := by
  intro he
  subst he
  have h1 := h.1
  omega

theorem isDig_not_isWS {c : Char} (h : isDig c) : isWS c = false := by
  unfold isWS
  have h1 : c ≠ ' ' := isDig_ne h (by decide)
  have h2 : c ≠ '\t' := isDig_ne h (by decide)
  have h3 : c ≠ '\n' := isDig_ne h (by decide)
  have h4 : c ≠ '\r' := isDig_ne h (by decide)
  simp [h1, h2, h3, h4]

theorem isDig_ne_slash {c : Char} (h : isDig c) : c ≠ '/' :=
  isDig_ne h (by decide)

theorem isDig_ne_dash {c : Char} (h : isDig c) : c ≠ '-' :=
  isDig_ne h (by decide)

theorem isDig_ne_dot {c : Char} (h : isDig c) : c ≠ '.' :=
  isDig_ne h (by decide)

theorem allDig_natStr (n : Nat) : allDig (natStr n) := by
  unfold natStr
  by_cases h0 : n = 0
  · rw [if_pos h0]
    intro x hx
    simp at hx
    subst hx
    exact ⟨by decide, by decide⟩
  · rw [if_neg h0]
    intro x hx
    rw [toList_mk] at hx
    simp only [List.mem_map] at hx
    obtain ⟨d, hd, rfl⟩ := hx
    exact digitChar_isDig (natDigsAux_lt10 n n d hd)

theorem allDig_append_zeros {s : String} (hs : allDig s) (z : String)
    (hz : allDig z) : allDig (z ++ s) := by
  intro x hx
  rw [toList_append] at hx
  rcases List.mem_append.1 hx with h | h
  · exact hz x h
  · exact hs x h

theorem allDig_pad2 (n : Nat) : allDig (pad2 n) := by
  unfold pad2
  by_cases h : n < 10
  · rw [if_pos h]
    exact allDig_append_zeros (allDig_natStr n) "0" (by decide)
  · rw [if_neg h]; exact allDig_natStr n

theorem allDig_pad4 (n : Nat) : allDig (pad4 n) := by
  unfold pad4
  by_cases h1 : n < 10
  · rw [if_pos h1]
    exact allDig_append_zeros (allDig_natStr n) _ (by decide)
  · by_cases h2 : n < 100
    · rw [if_neg h1, if_pos h2]
      exact allDig_append_zeros (allDig_natStr n) _ (by decide)
    · by_cases h3 : n < 1000
      · rw [if_neg h1, if_neg h2, if_pos h3]
        exact allDig_append_zeros (allDig_natStr n) _ (by decide)
      · rw [if_neg h1, if_neg h2, if_neg h3]
        exact allDig_natStr n

theorem natStr_toList_ne_nil (n : Nat) : (natStr n).toList ≠ [] := by
  unfold natStr
  by_cases h0 : n = 0
  · rw [if_pos h0]; decide
  · rw [if_neg h0, toList_mk]
    intro h
    rw [List.map_eq_nil] at h
    unfold natDigs at h
    cases fuel_eq : n with
    | zero => exact h0 fuel_eq
    | succ k =>
      rw [fuel_eq] at h
      unfold natDigsAux at h
      rw [if_neg (by omega : ¬ k + 1 = 0)] at h
      simp at h

theorem allDig_head {s : String} (hs : allDig s) (hne : s.toList ≠ []) :
    ∃ c t, s.toList = c :: t ∧ isDig c := by
  cases h : s.toList with
  | nil => exact absurd h hne
  | cons c t => exact ⟨c, t, rfl, hs c (by rw [h]; simp)⟩

theorem pad4_head (n : Nat) :
    ∃ c t, (pad4 n).toList = c :: t ∧ isDig c := by
  apply allDig_head (allDig_pad4 n)
  unfold pad4
  by_cases h1 : n < 10
  · rw [if_pos h1, toList_append]; simp
  · by_cases h2 : n < 100
    · rw [if_neg h1, if_pos h2, toList_append]; simp
    · by_cases h3 : n < 1000
      · rw [if_neg h1, if_neg h2, if_pos h3, toList_append]; simp
      · rw [if_neg h1, if_neg h2, if_neg h3]
        exact natStr_toList_ne_nil n

/-! ### Decomposition lemmas for the JS string helpers -/

theorem lastSeg_append {a b : String} (hb : noChar '/' b) :
    lastSeg (a ++ "/" ++ b) '/' = b := by
  unfold lastSeg
  have h1 : (a ++ "/" ++ b).toList = a.toList ++ ('/' :: b.toList) := by
    rw [toList_append, toList_append, List.append_assoc]
    rfl
  rw [h1, List.reverse_append]
  have h2 : ('/' :: b.toList).reverse = b.toList.reverse ++ ['/'] := by
    simp
  rw [h2, List.append_assoc]
  have h3 : (['/'] ++ a.toList.reverse) = '/' :: a.toList.reverse := rfl
  rw [h3, takeWhile_append_stop _ '/' _
    (fun x hx => by
      simp only [List.mem_reverse] at hx
      exact decide_eq_true (hb x hx))
    (by simp)]
  rw [List.reverse_reverse]
  exact string_eta b

theorem dirname_append {a b : String} (hb : noChar '/' b) :
    dirname (a ++ "/" ++ b) = a := by
  unfold dirname
  have h1 : (a ++ "/" ++ b).toList = a.toList ++ ('/' :: b.toList) := by
    rw [toList_append, toList_append, List.append_assoc]
    rfl
  rw [h1, List.reverse_append]
  have h2 : ('/' :: b.toList).reverse = b.toList.reverse ++ ['/'] := by simp
  rw [h2, List.append_assoc]
  have h3 : (['/'] ++ a.toList.reverse) = '/' :: a.toList.reverse := rfl
  rw [h3, dropWhile_append_stop _ '/' _
    (fun x hx => by
      simp only [List.mem_reverse] at hx
      exact decide_eq_true (hb x hx))
    (by simp)]
  rw [List.drop_one, List.tail_cons, List.reverse_reverse]
  exact string_eta a

theorem firstSeg_append {a b : String} (ha : noChar '-' a) :
    firstSeg (a ++ "-" ++ b) '-' = a := by
  unfold firstSeg
  have h1 : (a ++ "-" ++ b).toList = a.toList ++ ('-' :: b.toList) := by
    rw [toList_append, toList_append, List.append_assoc]
    rfl
  rw [h1, takeWhile_append_stop _ '-' _
    (fun x hx => decide_eq_true (ha x hx)) (by simp)]
  exact string_eta a

theorem firstSeg_all {c : Char} {s : String} (hs : noChar c s) :
    firstSeg s c = s := by
  unfold firstSeg
  rw [takeWhile_all _ (fun x hx => decide_eq_true (hs x hx))]
  exact string_eta s

theorem jsTrim_allDig_space {s : String} (hs : allDig s) :
    jsTrim (s ++ " ") = s := by
  cases hcase : s.toList with
  | nil =>
    obtain ⟨d⟩ := s
    have hd : d = [] := hcase
    subst hd
    decide
  | cons c t =>
    unfold jsTrim
    have h1 : (s ++ " ").toList = s.toList ++ [' '] := by
      rw [toList_append]; rfl
    rw [h1]
    have h2 : List.dropWhile isWS (s.toList ++ [' ']) = s.toList ++ [' '] := by
      rw [hcase, List.cons_append]
      apply List.dropWhile_cons_of_neg
      have : isDig c := hs c (by rw [hcase]; simp)
      simp [isDig_not_isWS this]
    rw [h2, List.reverse_append]
    have h3 : ([' '] : List Char).reverse = [' '] := rfl
    rw [h3]
    have h4 : ([' '] ++ s.toList.reverse) = ' ' :: s.toList.reverse := rfl
    rw [h4, List.dropWhile_cons_of_pos (by decide)]
    rw [dropWhile_all_neg _ (fun x hx => by
      simp only [List.mem_reverse] at hx
      exact isDig_not_isWS (hs x hx))]
    rw [List.reverse_reverse]
    exact string_eta s

theorem jsTrim_allDig {s : String} (hs : allDig s) : jsTrim s = s := by
  unfold jsTrim
  rw [dropWhile_all_neg _ (fun x hx => isDig_not_isWS (hs x hx))]
  rw [dropWhile_all_neg _ (fun x hx => by
    simp only [List.mem_reverse] at hx
    exact isDig_not_isWS (hs x hx))]
  rw [List.reverse_reverse]
  exact string_eta s

theorem stripExt_md {s : String} (hs : noChar '.' s) :
    stripExt (s ++ ".md") = s := by
  unfold stripExt
  have h1 : (s ++ ".md").toList = s.toList ++ ['.', 'm', 'd'] := by
    rw [toList_append]; rfl
  rw [h1]
  have hcont : (s.toList ++ ['.', 'm', 'd']).contains '.' = true := by
    simp [List.contains_eq_any_beq]
  rw [if_pos hcont]
  have h2 : (s.toList ++ ['.', 'm', 'd']).reverse
      = 'd' :: 'm' :: '.' :: s.toList.reverse := by
    rw [List.reverse_append]; rfl
  rw [h2, List.dropWhile_cons_of_pos (by decide),
    List.dropWhile_cons_of_pos (by decide),
    List.dropWhile_cons_of_neg (by simp), List.drop_one, List.tail_cons,
    List.reverse_reverse]
  exact string_eta s

theorem jsStartsWith_append (a b : String) : jsStartsWith (a ++ b) a = true := by
  unfold jsStartsWith
  rw [toList_append]
  exact List.isPrefixOf_iff_prefix.2 (List.prefix_append _ _)

theorem jsStartsWith_refl (a : String) : jsStartsWith a a = true := by
  unfold jsStartsWith
  exact List.isPrefixOf_iff_prefix.2 (List.prefix_refl _)

theorem jsStartsWith_empty (s : String) : jsStartsWith s "" = true := by
  unfold jsStartsWith
  exact List.isPrefixOf_iff_prefix.2 List.nil_prefix

theorem jsStartsWith_false_of_head {s pre : String} {c d : Char}
    {t u : List Char} (hs : s.toList = c :: t) (hp : pre.toList = d :: u)
    (hne : c ≠ d) : jsStartsWith s pre = false := by
  unfold jsStartsWith
  rw [hs, hp]
  simp [List.isPrefixOf, Ne.symm hne]

theorem jsEndsWith_false_of_last {s : String} {t : List Char} {c : Char}
    (hs : s.toList.reverse = c :: t) (hc : c ≠ 'd') :
    jsEndsWith s ".md" = false := by
  unfold jsEndsWith
  unfold List.isSuffixOf
  rw [hs]
  have h1 : (".md" : String).toList.reverse = 'd' :: 'm' :: ['.'] := rfl
  rw [h1]
  have hbe : ('d' == c) = false := beq_eq_false_iff_ne.2 (Ne.symm hc)
  simp [List.isPrefixOf, hbe]

/-! ### String algebra: associativity, units, `noChar` closure -/

theorem str_append_assoc (a b c : String) : a ++ b ++ c = a ++ (b ++ c) := by
  apply String.ext
  rw [String.data_append, String.data_append, String.data_append,
    String.data_append, List.append_assoc]

theorem str_append_empty (a : String) : a ++ "" = a := by
  apply String.ext
  rw [String.data_append]
  exact List.append_nil a.data

theorem str_empty_append (a : String) : "" ++ a = a := by
  apply String.ext
  rw [String.data_append]
  rfl

theorem noChar_append {c : Char} {a b : String} (ha : noChar c a)
    (hb : noChar c b) : noChar c (a ++ b) := by
  intro x hx
  rw [toList_append] at hx
  rcases List.mem_append.1 hx with h | h
  · exact ha x h
  · exact hb x h

theorem noChar_of_allDig_slash {s : String} (hs : allDig s) : noChar '/' s :=
  fun x hx => isDig_ne_slash (hs x hx)

theorem noChar_of_allDig_dash {s : String} (hs : allDig s) : noChar '-' s :=
  fun x hx => isDig_ne_dash (hs x hx)

theorem noChar_of_allDig_dot {s : String} (hs : allDig s) : noChar '.' s :=
  fun x hx => isDig_ne_dot (hs x hx)

/-! ### Weekday-name facts -/

theorem weekdayName_noSlash (w : Nat) : noChar '/' (weekdayName w) := by
  rcases w with _ | _ | _ | _ | _ | _ | _ | n <;> first
    | exact (by decide : noChar '/' "Sunday")
    | exact (by decide : noChar '/' "Monday")
    | exact (by decide : noChar '/' "Tuesday")
    | exact (by decide : noChar '/' "Wednesday")
    | exact (by decide : noChar '/' "Thursday")
    | exact (by decide : noChar '/' "Friday")
    | exact (by decide : noChar '/' "Saturday")

theorem weekdayName_noDot (w : Nat) : noChar '.' (weekdayName w) := by
  rcases w with _ | _ | _ | _ | _ | _ | _ | n <;> first
    | exact (by decide : noChar '.' "Sunday")
    | exact (by decide : noChar '.' "Monday")
    | exact (by decide : noChar '.' "Tuesday")
    | exact (by decide : noChar '.' "Wednesday")
    | exact (by decide : noChar '.' "Thursday")
    | exact (by decide : noChar '.' "Friday")
    | exact (by decide : noChar '.' "Saturday")

theorem weekdayName_rev (w : Nat) :
    ∃ t, (weekdayName w).toList.reverse = 'y' :: t := by
  rcases w with _ | _ | _ | _ | _ | _ | _ | n <;> exact ⟨_, rfl⟩

theorem fmt_year_std {s : Settings} (h : StdFmt s) (dt : Moment) :
    fmt dt s.yearFormat = pad4 dt.year := by
  rw [h.1]
  simp [fmt, fmtTok, str_append_empty]

theorem fmt_month_std {s : Settings} (h : StdFmt s) (dt : Moment) :
    fmt dt s.monthFormat = pad2 dt.month := by
  rw [h.2.1]
  simp [fmt, fmtTok, str_append_empty]

theorem fmt_day_std {s : Settings} (h : StdFmt s) (dt : Moment) :
    fmt dt s.dayFormat = pad2 dt.day := by
  rw [h.2.2]
  simp [fmt, fmtTok, str_append_empty]

theorem dailyRel_std {s : Settings} (h : StdFmt s) (y m d : Nat) :
    dailyRel s y m d = pad4 y ++ "/" ++ (pad2 m ++ "/" ++ dayBase y m d) := by
  obtain ⟨h1, h2, h3⟩ := h
  unfold dailyRel dailyFileFormat dayBase
  rw [h1, h2, h3]
  simp [fmt, fmtTok, mkMoment, str_append_empty, str_append_assoc]

theorem monthlyRel_std {s : Settings} (h : StdFmt s) (y m : Nat) :
    monthlyRel s y m
      = pad4 y ++ "/" ++ (s.monthlyNotesFolderName ++ "/" ++ monthBase m) := by
  obtain ⟨h1, h2, h3⟩ := h
  unfold monthlyRel monthlyFileFormat monthBase
  rw [h1, h2]
  simp [fmt, fmtTok, mkMoment, str_append_empty, str_append_assoc]

theorem noChar_dayBase_slash (y m d : Nat) : noChar '/' (dayBase y m d) :=
  noChar_append
    (noChar_append (noChar_of_allDig_slash (allDig_pad2 d)) (by decide))
    (weekdayName_noSlash _)

theorem noChar_dayBase_dot (y m d : Nat) : noChar '.' (dayBase y m d) :=
  noChar_append
    (noChar_append (noChar_of_allDig_dot (allDig_pad2 d)) (by decide))
    (weekdayName_noDot _)

theorem noChar_monthBase_slash (m : Nat) : noChar '/' (monthBase m) :=
  noChar_append (noChar_of_allDig_slash (allDig_pad2 m)) (by decide)

theorem noChar_monthBase_dot (m : Nat) : noChar '.' (monthBase m) :=
  noChar_append (noChar_of_allDig_dot (allDig_pad2 m)) (by decide)

theorem str_head_append {a : String} {c : Char} {t : List Char}
    (ha : a.toList = c :: t) (b : String) :
    (a ++ b).toList = c :: (t ++ b.toList) := by
  rw [toList_append, ha, List.cons_append]

theorem rev_append_head {b : String} {c : Char} {t : List Char}
    (hb : b.toList.reverse = c :: t) (a : String) :
    (a ++ b).toList.reverse = c :: (t ++ a.toList.reverse) := by
  rw [toList_append, List.reverse_append, hb, List.cons_append]

theorem dayBase_rev (y m d : Nat) :
    ∃ t, (dayBase y m d).toList.reverse = 'y' :: t := by
  obtain ⟨t, ht⟩ := weekdayName_rev (dayOfWeek y m d)
  exact ⟨_, rev_append_head ht _⟩

theorem monthBase_rev (m : Nat) :
    ∃ t, (monthBase m).toList.reverse = '-' :: t := by
  refine ⟨_, rev_append_head (b := " -") rfl _⟩

theorem dailyRel_not_md {s : Settings} (h : StdFmt s) (y m d : Nat) :
    jsEndsWith (dailyRel s y m d) ".md" = false := by
  rw [dailyRel_std h]
  obtain ⟨t, ht⟩ := dayBase_rev y m d
  have h2 := rev_append_head (b := pad2 m ++ "/" ++ dayBase y m d)
    (rev_append_head ht ((pad2 m) ++ "/")) (pad4 y ++ "/")
  exact jsEndsWith_false_of_last h2 (by decide)

theorem monthlyRel_not_md {s : Settings} (h : StdFmt s) (y m : Nat) :
    jsEndsWith (monthlyRel s y m) ".md" = false := by
  rw [monthlyRel_std h]
  obtain ⟨t, ht⟩ := monthBase_rev m
  have h2 := rev_append_head
    (b := s.monthlyNotesFolderName ++ "/" ++ monthBase m)
    (rev_append_head ht (s.monthlyNotesFolderName ++ "/")) (pad4 y ++ "/")
  exact jsEndsWith_false_of_last h2 (by decide)

theorem label_dayBase (y m d : Nat) :
    jsTrim (firstSeg (dayBase y m d) '-') = pad2 d := by
  have hsplit : dayBase y m d
      = (pad2 d ++ " ") ++ "-" ++ (" " ++ weekdayName (dayOfWeek y m d)) := by
    unfold dayBase
    rw [str_append_assoc, str_append_assoc]
    have : (" - " : String) = " " ++ ("-" ++ " ") := by decide
    rw [this]
    simp only [str_append_assoc]
  rw [hsplit, firstSeg_append
    (noChar_append (noChar_of_allDig_dash (allDig_pad2 d)) (by decide))]
  exact jsTrim_allDig_space (allDig_pad2 d)

theorem label_dayBase_md (y m d : Nat) :
    jsTrim (firstSeg (dayBase y m d ++ ".md") '-') = pad2 d := by
  have hsplit : dayBase y m d ++ ".md"
      = (pad2 d ++ " ") ++ "-"
        ++ ((" " ++ weekdayName (dayOfWeek y m d)) ++ ".md") := by
    unfold dayBase
    rw [str_append_assoc, str_append_assoc, str_append_assoc]
    have : (" - " : String) = " " ++ ("-" ++ " ") := by decide
    rw [this]
    simp only [str_append_assoc]
  rw [hsplit, firstSeg_append
    (noChar_append (noChar_of_allDig_dash (allDig_pad2 d)) (by decide))]
  exact jsTrim_allDig_space (allDig_pad2 d)

theorem label_monthBase (m : Nat) :
    jsTrim (firstSeg (monthBase m) '-') = pad2 m := by
  have hsplit : monthBase m = (pad2 m ++ " ") ++ "-" ++ "" := by
    unfold monthBase
    rw [str_append_assoc, str_append_assoc]
    have : (" -" : String) = " " ++ ("-" ++ "") := by decide
    rw [this]
  rw [hsplit, firstSeg_append
    (noChar_append (noChar_of_allDig_dash (allDig_pad2 m)) (by decide))]
  exact jsTrim_allDig_space (allDig_pad2 m)

theorem label_monthBase_md (m : Nat) :
    jsTrim (firstSeg (monthBase m ++ ".md") '-') = pad2 m := by
  have hsplit : monthBase m ++ ".md" = (pad2 m ++ " ") ++ "-" ++ ".md" := by
    unfold monthBase
    rw [str_append_assoc, str_append_assoc]
    have : (" -" ++ ".md" : String) = " " ++ ("-" ++ ".md") := by decide
    rw [this]
    simp only [str_append_assoc]
  rw [hsplit, firstSeg_append
    (noChar_append (noChar_of_allDig_dash (allDig_pad2 m)) (by decide))]
  exact jsTrim_allDig_space (allDig_pad2 m)

theorem VExt.vrefl (v : Vault) : VExt v v :=
  ⟨⟨[], (List.append_nil _).symm⟩, fun _ h => h, rfl, rfl, rfl⟩

theorem VExt.vcomp {a b c : Vault} (h1 : VExt a b) (h2 : VExt b c) :
    VExt a c := by
  obtain ⟨l1, hl1⟩ := h1.files_ext
  obtain ⟨l2, hl2⟩ := h2.files_ext
  exact ⟨⟨l1 ++ l2, by rw [hl2, hl1, List.append_assoc]⟩,
    fun p hp => h2.folders_sub p (h1.folders_sub p hp),
    h2.fc_eq.trans h1.fc_eq, h2.ff_eq.trans h1.ff_eq,
    h2.fr_eq.trans h1.fr_eq⟩

theorem VExt.mem_files {v v' : Vault} (h : VExt v v') {f : TFile}
    (hf : f ∈ v.files) : f ∈ v'.files := by
  obtain ⟨l, hl⟩ := h.files_ext
  rw [hl]
  exact List.mem_append_left _ hf

theorem SExt.srefl (st : St) : SExt st st :=
  ⟨VExt.vrefl _, ⟨[], (List.append_nil _).symm⟩⟩

theorem SExt.scomp {a b c : St} (h1 : SExt a b) (h2 : SExt b c) : SExt a c := by
  obtain ⟨l1, hl1⟩ := h1.notices_ext
  obtain ⟨l2, hl2⟩ := h2.notices_ext
  exact ⟨h1.vext.vcomp h2.vext,
    ⟨l1 ++ l2, by rw [hl2, hl1, List.append_assoc]⟩⟩

theorem SExt.mem_notices {a b : St} (h : SExt a b) {m : String}
    (hm : m ∈ a.notices) : m ∈ b.notices := by
  obtain ⟨l, hl⟩ := h.notices_ext
  rw [hl]
  exact List.mem_append_left _ hm

theorem notify_sext (st : St) (m : String) : SExt st (notify st m) :=
  ⟨VExt.vrefl _, ⟨[m], rfl⟩⟩

/-! ### Shape lemmas for the store operations -/

theorem vaultCreateFolder_ok {v : Vault} {p : String} {v' : Vault}
    (h : vaultCreateFolder v p = .ok v') :
    v' = { v with folders := v.folders ++ [p] } := by
  unfold vaultCreateFolder at h
  split_ifs at h <;>
    first
      | exact (Except.ok.inj h).symm
      | exact absurd h (by simp)

theorem vaultCreate_ok {v : Vault} {p c : String} {v' : Vault}
    (h : vaultCreate v p c = .ok v') :
    v' = { v with files := v.files ++ [mkTFile p c] } := by
  unfold vaultCreate at h
  split_ifs at h <;>
    first
      | exact (Except.ok.inj h).symm
      | exact absurd h (by simp)

theorem vaultCreate_error {v : Vault} {p c e : String}
    (h : vaultCreate v p c = .error e) :
    (∃ f ∈ v.files, f.path = p) ∨ p ∈ v.folders ∨ p ∈ v.failCreates := by
  unfold vaultCreate at h
  split_ifs at h with h1 h2
  · rcases Bool.or_eq_true_iff.1 h1 with hf | hf
    · obtain ⟨f, hf1, hf2⟩ := List.any_eq_true.1 hf
      exact Or.inl ⟨f, hf1, by simpa using hf2⟩
    · exact Or.inr (Or.inl (by simpa using hf))
  · exact Or.inr (Or.inr (by simpa using h2))

theorem lookupAF_cases {v : Vault} {p : String}
    (h : ¬ (lookupAF v p).isNone = true) :
    (∃ f ∈ v.files, f.path = p) ∨ p ∈ v.folders := by
  unfold lookupAF at h
  cases hfind : v.files.find? (fun f => f.path == p) with
  | some f =>
    exact Or.inl ⟨f, List.mem_of_find?_eq_some hfind,
      by simpa using List.find?_some hfind⟩
  | none =>
    rw [hfind] at h
    split_ifs at h with h4
    · exact Or.inr (by simpa using h4)
    · simp at h

theorem lookupAF_not_none_of_folder {v : Vault} {p : String}
    (h : p ∈ v.folders) : ¬ (lookupAF v p).isNone = true := by
  unfold lookupAF
  cases hfind : v.files.find? (fun f => f.path == p) with
  | some f => simp
  | none => simpa using h

theorem lookupAF_not_none_of_file {v : Vault} {p : String} {f : TFile}
    (hf : f ∈ v.files) (hp : f.path = p) :
    ¬ (lookupAF v p).isNone = true := by
  unfold lookupAF
  cases hfind : v.files.find? (fun f => f.path == p) with
  | some g => simp
  | none =>
    exfalso
    have := List.find?_eq_none.1 hfind f hf
    simp [hp] at this

theorem cascadeStep_spec (nfp p : String) (st : St) :
    SExt st (cascadeStep nfp p st)
    ∧ (cascadeStep nfp p st).vault.files = st.vault.files
    ∧ (p ∈ (cascadeStep nfp p st).vault.folders
       ∨ (p ∈ st.vault.failFolders
          ∧ ("Error creating folder, " ++ p ++ " for " ++ nfp)
            ∈ (cascadeStep nfp p st).notices)
       ∨ (∃ f ∈ st.vault.files, f.path = p)) := by
  unfold cascadeStep
  split_ifs with h1
  · cases hres : vaultCreateFolder st.vault p with
    | ok v =>
      have hv := vaultCreateFolder_ok hres
      subst hv
      exact ⟨⟨⟨⟨[], (List.append_nil _).symm⟩, fun q hq =>
        List.mem_append_left _ hq, rfl, rfl, rfl⟩,
        ⟨[], (List.append_nil _).symm⟩⟩, rfl, Or.inl (by simp)⟩
    | error e =>
      refine ⟨notify_sext _ _, rfl, ?_⟩
      unfold vaultCreateFolder at hres
      split_ifs at hres with h2 h3
      · exact Or.inr (Or.inl ⟨by simpa using h2, by simp [notify]⟩)
      · exfalso
        rcases Bool.or_eq_true_iff.1 h3 with hc | hc
        · exact lookupAF_not_none_of_folder (by simpa using hc) h1
        · obtain ⟨f, hf1, hf2⟩ := List.any_eq_true.1 hc
          exact lookupAF_not_none_of_file hf1 (by simpa using hf2) h1
  · refine ⟨SExt.srefl _, rfl, ?_⟩
    rcases lookupAF_cases h1 with h | h
    · exact Or.inr (Or.inr h)
    · exact Or.inl h

theorem cascadeGo_spec (nfp : String) : ∀ (segs : List String) (prev : String)
    (st : St), SExt st (cascadeGo nfp segs prev st)
      ∧ (cascadeGo nfp segs prev st).vault.files = st.vault.files := by
  intro segs
  induction segs with
  | nil => intro prev st; exact ⟨SExt.srefl _, rfl⟩
  | cons seg rest ih =>
    intro prev st
    have hstep := cascadeStep_spec nfp (pjoin prev seg) st
    have hrest := ih (pjoin prev seg) (cascadeStep nfp (pjoin prev seg) st)
    exact ⟨(hstep.1).scomp hrest.1,
      by rw [cascadeGo, hrest.2, hstep.2.1]⟩

theorem ensureFolders_spec (nfp fp : String) (st : St) :
    SExt st (ensureFolders nfp fp st)
    ∧ (ensureFolders nfp fp st).vault.files = st.vault.files := by
  unfold ensureFolders
  split_ifs with h
  · exact (cascadeGo_spec nfp (splitChar fp '/') "" st)
  · exact ⟨SExt.srefl _, rfl⟩

/-- Behaviour of `createNewFile` as its callers observe it: the state only
extends; a label match in the supplied listing means no file is appended;
otherwise either exactly the normalized artifact is appended with the rendered
content and the call returns its path, or nothing is appended because the
store rejected the write — the path was occupied (file or folder) or the write
was rejected outright. -/
theorem createNewFile_spec (env : Env) (s : Settings) (cd : Moment)
    (p tpl : String) (fif : List TFile) (st : St) :
    SExt st (createNewFile env s cd p tpl fif st).2
    ∧ ((fif.find? (labelMatch
          (jsTrim (firstSeg (pbasename (normPath s p)) '-')))).isSome →
        (createNewFile env s cd p tpl fif st).2.vault.files
          = st.vault.files)
    ∧ ((fif.find? (labelMatch
          (jsTrim (firstSeg (pbasename (normPath s p)) '-')))) = none →
        ((createNewFile env s cd p tpl fif st).2.vault.files
            = st.vault.files
              ++ [mkTFile (normPath s p)
                  (renderContent env s cd tpl
                    (fileNameNoExtension (normPath s p)))]
          ∧ (createNewFile env s cd p tpl fif st).1 = .ok (normPath s p))
        ∨ ((createNewFile env s cd p tpl fif st).2.vault.files
              = st.vault.files
           ∧ (normPath s p ∈ st.vault.failCreates
              ∨ (∃ f ∈ st.vault.files, f.path = normPath s p)
              ∨ normPath s p
                  ∈ (createNewFile env s cd p tpl fif st).2.vault.folders))) := by
  have hens := ensureFolders_spec (normPath s p)
    (folderPathOf (normPath s p)) st
  unfold createNewFile
  cases hfind : fif.find? (labelMatch
      (jsTrim (firstSeg (pbasename (normPath s p)) '-'))) with
  | some f0 =>
    simp only [hfind]
    exact ⟨hens.1, fun _ => hens.2, fun hnone => by simp at hnone⟩
  | none =>
    simp only [hfind]
    cases hc : vaultCreate
        (ensureFolders (normPath s p) (folderPathOf (normPath s p)) st).vault
        (normPath s p)
        (renderContent env s cd tpl (fileNameNoExtension (normPath s p))) with
    | error e =>
      simp only [hc]
      refine ⟨hens.1, fun hsome => by simp at hsome, fun _ => Or.inr ⟨hens.2, ?_⟩⟩
      rcases vaultCreate_error hc with h | h | h
      · obtain ⟨f, hf1, hf2⟩ := h
        rw [hens.2] at hf1
        exact Or.inr (Or.inl ⟨f, hf1, hf2⟩)
      · exact Or.inr (Or.inr h)
      · rw [hens.1.vext.fc_eq] at h
        exact Or.inl h
    | ok v =>
      simp only [hc]
      have hv := vaultCreate_ok hc
      subst hv
      refine ⟨?_, ?_, ?_⟩
      · exact hens.1.scomp ⟨⟨⟨[mkTFile _ _], rfl⟩, fun q hq => hq, rfl, rfl, rfl⟩,
          ⟨[], (List.append_nil _).symm⟩⟩
      · intro hsome
        simp at hsome
      · intro hn
        refine Or.inl ⟨?_, ?_⟩
        · rw [hens.2]
        · trivial

/-- Behaviour of the guarded per-period call: the state only extends; either
the normalized artifact was appended, or no file was appended and either the
listing matched, or the write was rejected (with the path occupied or the
store rejecting). -/
theorem createNewFileCaught_spec (env : Env) (s : Settings) (cd : Moment)
    (p tpl : String) (fif : List TFile) (st : St) :
    SExt st (createNewFileCaught env s cd p tpl fif st)
    ∧ ((∃ C, (createNewFileCaught env s cd p tpl fif st).vault.files
          = st.vault.files ++ [mkTFile (normPath s p) C])
      ∨ ((createNewFileCaught env s cd p tpl fif st).vault.files
            = st.vault.files
        ∧ ((fif.find? (labelMatch (jsTrim (firstSeg
              (pbasename (normPath s p)) '-')))).isSome
          ∨ normPath s p ∈ st.vault.failCreates
          ∨ (∃ f ∈ st.vault.files, f.path = normPath s p)
          ∨ normPath s p
              ∈ (createNewFileCaught env s cd p tpl fif st).vault.folders))) := by
  have hspec := createNewFile_spec env s cd p tpl fif st
  unfold createNewFileCaught
  cases hcr : createNewFile env s cd p tpl fif st with
  | mk r st2 =>
    rw [hcr] at hspec
    dsimp only at hspec
    cases r with
    | error e =>
      simp only [hcr]
      refine ⟨hspec.1.scomp (notify_sext _ _), ?_⟩
      cases hfind : fif.find? (labelMatch (jsTrim (firstSeg
          (pbasename (normPath s p)) '-'))) with
      | some f0 =>
        exact Or.inr ⟨by simp [notify, hspec.2.1 (by rw [hfind]; rfl)],
          Or.inl rfl⟩
      | none =>
        rcases hspec.2.2 hfind with ⟨hfiles, hr⟩ | ⟨hfiles, hrest⟩
        · exact absurd hr (by simp)
        · refine Or.inr ⟨by simp [notify, hfiles], ?_⟩
          rcases hrest with h | h | h
          · exact Or.inr (Or.inl h)
          · exact Or.inr (Or.inr (Or.inl h))
          · exact Or.inr (Or.inr (Or.inr (by simpa [notify] using h)))
    | ok pp =>
      simp only [hcr]
      refine ⟨hspec.1, ?_⟩
      cases hfind : fif.find? (labelMatch (jsTrim (firstSeg
          (pbasename (normPath s p)) '-'))) with
      | some f0 =>
        exact Or.inr ⟨hspec.2.1 (by rw [hfind]; rfl), Or.inl rfl⟩
      | none =>
        rcases hspec.2.2 hfind with ⟨hfiles, hr⟩ | ⟨hfiles, hrest⟩
        · exact Or.inl ⟨_, hfiles⟩
        · refine Or.inr ⟨hfiles, ?_⟩
          rcases hrest with h | h | h
          · exact Or.inr (Or.inl h)
          · exact Or.inr (Or.inr (Or.inl h))
          · exact Or.inr (Or.inr (Or.inr h))

/-- Behaviour of one day-loop iteration of `createDailyNote`: exactly one of —
the current-month cap skipped it; the listing snapshot matched its label; the
NONE-policy past-day rule skipped it; or the guarded creation ran (appending
the day's artifact or rejecting), with all three skip guards false. -/
theorem processDay_spec (env : Env) (s : Settings) (tpl : String)
    (Y mN : Nat) (cu nowLbl : String) (fif : List TFile) (st : St) (d : Nat) :
    SExt st (processDay env s tpl Y mN cu nowLbl fif st d)
    ∧ (((cu = nowLbl ∧ env.now.day < d)
        ∧ processDay env s tpl Y mN cu nowLbl fif st d = st)
      ∨ (fif.any (labelMatch (fmt (mkMoment Y (mN + 1) d) s.dayFormat)) = true
        ∧ processDay env s tpl Y mN cu nowLbl fif st d = st)
      ∨ ((s.dailyNotesBackfill = .NONE ∧ d < env.now.day)
        ∧ processDay env s tpl Y mN cu nowLbl fif st d = st)
      ∨ (¬(cu = nowLbl ∧ env.now.day < d)
        ∧ fif.any (labelMatch (fmt (mkMoment Y (mN + 1) d) s.dayFormat)) = false
        ∧ ¬(s.dailyNotesBackfill = .NONE ∧ d < env.now.day)
        ∧ ((∃ C, (processDay env s tpl Y mN cu nowLbl fif st d).vault.files
              = st.vault.files ++ [mkTFile (dailyPathFor s Y (mN + 1) d) C])
          ∨ ((processDay env s tpl Y mN cu nowLbl fif st d).vault.files
                = st.vault.files
             ∧ ((fif.find? (labelMatch (jsTrim (firstSeg
                   (pbasename (dailyPathFor s Y (mN + 1) d)) '-')))).isSome
                ∨ dailyPathFor s Y (mN + 1) d ∈ st.vault.failCreates
                ∨ (∃ f ∈ st.vault.files,
                    f.path = dailyPathFor s Y (mN + 1) d)
                ∨ dailyPathFor s Y (mN + 1) d
                    ∈ (processDay env s tpl Y mN cu nowLbl fif st d).vault.folders))))) := by
  simp only [processDay]
  split_ifs with h1 h2 h3
  · exact ⟨SExt.srefl _, Or.inl ⟨h1, rfl⟩⟩
  · exact ⟨SExt.srefl _, Or.inr (Or.inl ⟨h2, rfl⟩)⟩
  · exact ⟨SExt.srefl _, Or.inr (Or.inr (Or.inl ⟨h3, rfl⟩))⟩
  all_goals {
    refine ⟨(createNewFileCaught_spec env s _ _ tpl fif st).1,
      Or.inr (Or.inr (Or.inr ⟨h1, by simpa using h2, h3, ?_⟩))⟩
    exact (createNewFileCaught_spec env s _
      (fmt (mkMoment Y (mN + 1) d) (dailyFileFormat s)) tpl fif st).2
  }

/-! ### Fold lemmas for the iterators -/

theorem foldl_sext {α : Type} (step : St → α → St) (l : List α) (st : St)
    (h : ∀ st' a, a ∈ l → SExt st' (step st' a)) :
    SExt st (l.foldl step st) := by
  induction l generalizing st with
  | nil => exact SExt.srefl st
  | cons a t ih =>
    exact (h st a (by simp)).scomp
      (ih (step st a) (fun st' b hb => h st' b (by simp [hb])))

theorem foldl_files {α : Type} (step : St → α → St) (P : α → TFile → Prop)
    (l : List α) (st : St)
    (h : ∀ st' a, a ∈ l → ∀ f ∈ (step st' a).vault.files,
      f ∈ st'.vault.files ∨ P a f) :
    ∀ f ∈ (l.foldl step st).vault.files,
      f ∈ st.vault.files ∨ ∃ a ∈ l, P a f := by
  induction l generalizing st with
  | nil => intro f hf; exact Or.inl hf
  | cons a t ih =>
    intro f hf
    rcases ih (step st a)
        (fun st' b hb => h st' b (by simp [hb])) f hf with hin | ⟨b, hb, hP⟩
    · rcases h st a (by simp) f hin with hin' | hP
      · exact Or.inl hin'
      · exact Or.inr ⟨a, by simp, hP⟩
    · exact Or.inr ⟨b, by simp [hb], hP⟩

/-- Behaviour of one month-loop iteration of `createDailyNote`: it skips
future months and (under MONTH/NONE) months whose label differs from the
current one; otherwise every file it appends is a daily artifact of that month
satisfying the day guards. -/
theorem processMonth_spec (env : Env) (s : Settings) (tpl : String)
    (Y : Nat) (st : St) (mN : Nat) :
    SExt st (processMonth env s tpl Y st mN)
    ∧ ((env.now.month0 < mN ∧ processMonth env s tpl Y st mN = st)
      ∨ (((s.dailyNotesBackfill = .MONTH ∨ s.dailyNotesBackfill = .NONE)
          ∧ fmt (mkMoment Y (mN + 1) 1) s.monthFormat
              ≠ fmt env.now s.monthFormat)
         ∧ processMonth env s tpl Y st mN = st)
      ∨ (¬ env.now.month0 < mN
        ∧ ((s.dailyNotesBackfill = .MONTH ∨ s.dailyNotesBackfill = .NONE)
            → fmt (mkMoment Y (mN + 1) 1) s.monthFormat
                = fmt env.now s.monthFormat)
        ∧ ∀ f ∈ (processMonth env s tpl Y st mN).vault.files,
            f ∈ st.vault.files ∨ DailyNewFile env s Y mN f)) := by
  simp only [processMonth]
  split_ifs with h1 h2
  · exact ⟨SExt.srefl _, Or.inl ⟨h1, rfl⟩⟩
  · exact ⟨SExt.srefl _, Or.inr (Or.inl ⟨h2, rfl⟩)⟩
  · constructor
    · exact foldl_sext _ _ st (fun st' d _ =>
        (processDay_spec env s tpl Y mN _ _ _ st' d).1)
    · refine Or.inr (Or.inr ⟨h1,
        fun hp => by_contra fun hne => h2 ⟨hp, hne⟩, ?_⟩)
      intro f hf
      refine foldl_files _ (fun d f => DailyNewFile env s Y mN f) _ st
        ?_ f hf |>.imp id (fun ⟨d, _, hP⟩ => hP)
      intro st' d hd g hg
      have hspec := processDay_spec env s tpl Y mN
        (fmt (mkMoment Y (mN + 1) 1) s.monthFormat)
        (fmt env.now s.monthFormat)
        (st.vault.files.filter (fun f => jsStartsWith f.path
          (stripSlash (pjoin s.rootFolder
            (dirname (fmt (mkMoment Y (mN + 1) 1) (dailyFileFormat s)
              ++ ".md")))))) st' d
      rcases hspec.2 with ⟨_, heq⟩ | ⟨_, heq⟩ | ⟨_, heq⟩ |
          ⟨hg1, _, hg3, hcreate⟩
      · rw [heq] at hg; exact Or.inl hg
      · rw [heq] at hg; exact Or.inl hg
      · rw [heq] at hg; exact Or.inl hg
      · rcases hcreate with ⟨C, hfiles⟩ | ⟨hfiles, _⟩
        · rw [hfiles] at hg
          rcases List.mem_append.1 hg with hin | hnew
          · exact Or.inl hin
          · simp only [List.mem_singleton] at hnew
            subst hnew
            have hdmem := List.mem_range'_1.1 hd
            refine Or.inr ⟨d, hdmem.1, by omega, rfl, ?_, ?_⟩
            · intro hlbl
              by_contra hgt
              exact hg1 ⟨hlbl, by omega⟩
            · intro hnone
              by_contra hlt
              exact hg3 ⟨hnone, by omega⟩
        · rw [hfiles] at hg; exact Or.inl hg

/-- Template resolution never touches the vault. -/
theorem getNoteTemplateContents_vault (env : Env) (s : Settings) (b : Bool)
    (st : St) : (getNoteTemplateContents env s b st).2.vault = st.vault
      ∧ SExt st (getNoteTemplateContents env s b st).2 := by
  simp only [getNoteTemplateContents]
  generalize (if b = true then s.dailyNotesTemplateFile
    else s.monthlyNotesTemplateFile) = tp
  split_ifs with h1 <;>
    first
      | exact ⟨rfl, SExt.srefl _⟩
      | (cases hlk : lookupAF st.vault (tp ++ ".md") with
         | none => exact ⟨rfl, notify_sext _ _⟩
         | some af =>
           cases af with
           | file f =>
             dsimp only
             cases hr : vaultRead st.vault f with
             | error e => exact ⟨rfl, SExt.srefl _⟩
             | ok c => exact ⟨rfl, SExt.srefl _⟩
           | folder p => exact ⟨rfl, notify_sext _ _⟩)

/-- Every file `createDailyNote` appends is a daily artifact of a non-future
month of the current year, with the month-restriction and day-guard facts of
the iterator. -/
theorem createDailyNote_spec (env : Env) (s : Settings) (st : St) :
    SExt st (createDailyNote env s st).2
    ∧ ∀ f ∈ (createDailyNote env s st).2.vault.files,
        f ∈ st.vault.files
        ∨ ∃ mN, mN < 12 ∧ mN ≤ env.now.month0
          ∧ ((s.dailyNotesBackfill = .MONTH ∨ s.dailyNotesBackfill = .NONE)
              → fmt (mkMoment (yearNumOf env s) (mN + 1) 1) s.monthFormat
                  = fmt env.now s.monthFormat)
          ∧ DailyNewFile env s (yearNumOf env s) mN f := by
  have htpl := getNoteTemplateContents_vault env s true st
  unfold createDailyNote
  cases hres : getNoteTemplateContents env s true st with
  | mk r st' =>
    rw [hres] at htpl
    cases r with
    | error e => exact ⟨htpl.2, fun f hf => Or.inl (by rw [← htpl.1]; exact hf)⟩
    | ok o =>
      cases o with
      | none =>
        exact ⟨htpl.2, fun f hf => Or.inl (by rw [← htpl.1]; exact hf)⟩
      | some tpl =>
        refine ⟨htpl.2.scomp (foldl_sext _ _ st' (fun st2 mN _ =>
          (processMonth_spec env s tpl (yearNumOf env s) st2 mN).1)), ?_⟩
        intro f hf
        have hfold := foldl_files
          (processMonth env s tpl (parseNatStr (fmt env.now s.yearFormat)))
          (fun mN f => mN ≤ env.now.month0
            ∧ ((s.dailyNotesBackfill = .MONTH ∨ s.dailyNotesBackfill = .NONE)
                → fmt (mkMoment (yearNumOf env s) (mN + 1) 1) s.monthFormat
                    = fmt env.now s.monthFormat)
            ∧ DailyNewFile env s (yearNumOf env s) mN f)
          (List.range 12) st' ?_ f hf
        · rcases hfold with hin | ⟨mN, hmem, hP⟩
          · exact Or.inl (by rw [← htpl.1]; exact hin)
          · exact Or.inr ⟨mN, List.mem_range.1 hmem, hP⟩
        · intro st2 mN _ g hg
          have hm := processMonth_spec env s tpl (yearNumOf env s) st2 mN
          rcases hm.2 with ⟨_, heq⟩ | ⟨_, heq⟩ | ⟨hfut, hlbl, hfiles⟩
          · rw [show processMonth env s tpl
                (parseNatStr (fmt env.now s.yearFormat)) st2 mN
                = processMonth env s tpl (yearNumOf env s) st2 mN from rfl,
              heq] at hg
            exact Or.inl hg
          · rw [show processMonth env s tpl
                (parseNatStr (fmt env.now s.yearFormat)) st2 mN
                = processMonth env s tpl (yearNumOf env s) st2 mN from rfl,
              heq] at hg
            exact Or.inl hg
          · rcases hfiles g (by exact hg) with hin | hP
            · exact Or.inl hin
            · exact Or.inr ⟨by omega, hlbl, hP⟩

/-- Behaviour of one month-loop iteration of `createMonthlyNote`: exactly one
of — the future-month skip; the non-YEAR current-month restriction; the
listing snapshot matched; the day-of-month has not arrived in the current
month; or the guarded creation ran, with all four skip guards false. -/
theorem processMonthly_spec (env : Env) (s : Settings) (tpl : String)
    (Y : Nat) (fif : List TFile) (st : St) (mN : Nat) :
    SExt st (processMonthly env s tpl Y fif st mN)
    ∧ ((env.now.month0 < mN ∧ processMonthly env s tpl Y fif st mN = st)
      ∨ ((s.monthlyNotesBackfill ≠ .YEAR
          ∧ fmt (mkMoment Y (mN + 1) s.monthlyNotesDayOfMonth) s.monthFormat
              ≠ fmt env.now s.monthFormat)
         ∧ processMonthly env s tpl Y fif st mN = st)
      ∨ (fif.any (labelMatch
            (fmt (mkMoment Y (mN + 1) s.monthlyNotesDayOfMonth) s.monthFormat))
            = true
         ∧ processMonthly env s tpl Y fif st mN = st)
      ∨ ((env.now.day < s.monthlyNotesDayOfMonth ∧ mN = env.now.month0)
         ∧ processMonthly env s tpl Y fif st mN = st)
      ∨ (¬ env.now.month0 < mN
        ∧ ¬(s.monthlyNotesBackfill ≠ .YEAR
            ∧ fmt (mkMoment Y (mN + 1) s.monthlyNotesDayOfMonth) s.monthFormat
                ≠ fmt env.now s.monthFormat)
        ∧ fif.any (labelMatch
            (fmt (mkMoment Y (mN + 1) s.monthlyNotesDayOfMonth) s.monthFormat))
            = false
        ∧ ¬(env.now.day < s.monthlyNotesDayOfMonth ∧ mN = env.now.month0)
        ∧ ((∃ C, (processMonthly env s tpl Y fif st mN).vault.files
              = st.vault.files ++ [mkTFile (monthlyPathFor s Y (mN + 1)) C])
          ∨ ((processMonthly env s tpl Y fif st mN).vault.files
                = st.vault.files
             ∧ ((fif.find? (labelMatch (jsTrim (firstSeg
                   (pbasename (monthlyPathFor s Y (mN + 1))) '-')))).isSome
                ∨ monthlyPathFor s Y (mN + 1) ∈ st.vault.failCreates
                ∨ (∃ f ∈ st.vault.files,
                    f.path = monthlyPathFor s Y (mN + 1))
                ∨ monthlyPathFor s Y (mN + 1)
                    ∈ (processMonthly env s tpl Y fif st mN).vault.folders))))) := by
  simp only [processMonthly]
  split_ifs with h1 h2 h3 h4
  · exact ⟨SExt.srefl _, Or.inl ⟨h1, rfl⟩⟩
  · exact ⟨SExt.srefl _, Or.inr (Or.inl ⟨h2, rfl⟩)⟩
  · exact ⟨SExt.srefl _, Or.inr (Or.inr (Or.inl ⟨h3, rfl⟩))⟩
  · exact ⟨SExt.srefl _, Or.inr (Or.inr (Or.inr (Or.inl ⟨h4, rfl⟩)))⟩
  all_goals {
    refine ⟨(createNewFileCaught_spec env s _ _ tpl fif st).1,
      Or.inr (Or.inr (Or.inr (Or.inr
        ⟨h1, h2, by simpa using h3, h4, ?_⟩)))⟩
    exact (createNewFileCaught_spec env s _
      (fmt (mkMoment Y (mN + 1) s.monthlyNotesDayOfMonth)
        (monthlyFileFormat s)) tpl fif st).2
  }

/-- Every file `createMonthlyNote` appends is the monthly artifact of a
non-future month of the current year; under a non-YEAR policy only of a month
labelled like the current one. -/
theorem createMonthlyNote_spec (env : Env) (s : Settings) (st : St) :
    SExt st (createMonthlyNote env s st).2
    ∧ ∀ f ∈ (createMonthlyNote env s st).2.vault.files,
        f ∈ st.vault.files
        ∨ ∃ mN, mN < 12 ∧ mN ≤ env.now.month0
          ∧ (s.monthlyNotesBackfill ≠ .YEAR
              → fmt (mkMoment (yearNumOf env s) (mN + 1)
                    s.monthlyNotesDayOfMonth) s.monthFormat
                  = fmt env.now s.monthFormat)
          ∧ ¬(env.now.day < s.monthlyNotesDayOfMonth ∧ mN = env.now.month0)
          ∧ f.path = monthlyPathFor s (yearNumOf env s) (mN + 1) := by
  have htpl := getNoteTemplateContents_vault env s false st
  unfold createMonthlyNote
  cases hres : getNoteTemplateContents env s false st with
  | mk r st' =>
    rw [hres] at htpl
    cases r with
    | error e => exact ⟨htpl.2, fun f hf => Or.inl (by rw [← htpl.1]; exact hf)⟩
    | ok o =>
      cases o with
      | none =>
        exact ⟨htpl.2, fun f hf => Or.inl (by rw [← htpl.1]; exact hf)⟩
      | some tpl =>
        refine ⟨htpl.2.scomp (foldl_sext _ _ st' (fun st2 mN _ =>
          (processMonthly_spec env s tpl (yearNumOf env s) _ st2 mN).1)), ?_⟩
        intro f hf
        have hfold := foldl_files
          (processMonthly env s tpl (parseNatStr (fmt env.now s.yearFormat))
            (st'.vault.files.filter (fun f =>
              jsStartsWith f.path (stripSlash (pjoin s.rootFolder
                (dirname (fmt env.now (monthlyFileFormat s) ++ ".md"))))
              && (match f.parentName with
                  | some n =>
                    if n = "" then true else n == s.monthlyNotesFolderName
                  | none => true))))
          (fun mN f => mN ≤ env.now.month0
            ∧ (s.monthlyNotesBackfill ≠ .YEAR
                → fmt (mkMoment (yearNumOf env s) (mN + 1)
                      s.monthlyNotesDayOfMonth) s.monthFormat
                    = fmt env.now s.monthFormat)
            ∧ ¬(env.now.day < s.monthlyNotesDayOfMonth ∧ mN = env.now.month0)
            ∧ f.path = monthlyPathFor s (yearNumOf env s) (mN + 1))
          (List.range 12) st' ?_ f hf
        · rcases hfold with hin | ⟨mN, hmem, hP⟩
          · exact Or.inl (by rw [← htpl.1]; exact hin)
          · exact Or.inr ⟨mN, List.mem_range.1 hmem, hP⟩
        · intro st2 mN _ g hg
          have hm := processMonthly_spec env s tpl
            (parseNatStr (fmt env.now s.yearFormat))
            (st'.vault.files.filter (fun f =>
              jsStartsWith f.path (stripSlash (pjoin s.rootFolder
                (dirname (fmt env.now (monthlyFileFormat s) ++ ".md"))))
              && (match f.parentName with
                  | some n =>
                    if n = "" then true else n == s.monthlyNotesFolderName
                  | none => true))) st2 mN
          rcases hm.2 with ⟨_, heq⟩ | ⟨_, heq⟩ | ⟨_, heq⟩ | ⟨_, heq⟩ |
              ⟨hg1, hg2, _, hg4, hcreate⟩
          · rw [heq] at hg; exact Or.inl hg
          · rw [heq] at hg; exact Or.inl hg
          · rw [heq] at hg; exact Or.inl hg
          · rw [heq] at hg; exact Or.inl hg
          · rcases hcreate with ⟨C, hfiles⟩ | ⟨hfiles, _⟩
            · rw [hfiles] at hg
              rcases List.mem_append.1 hg with hin | hnew
              · exact Or.inl hin
              · simp only [List.mem_singleton] at hnew
                subst hnew
                refine Or.inr ⟨by omega, ?_, hg4, rfl⟩
                intro hp
                by_contra hne
                exact hg2 ⟨hp, hne⟩
            · rw [hfiles] at hg; exact Or.inl hg

theorem yearNumOf_std {env : Env} {s : Settings} (h : StdFmt s) :
    yearNumOf env s = env.now.year := by
  unfold yearNumOf
  rw [fmt_year_std h]
  exact parseNatStr_pad4 _

/-! ### Claim theorems -/

/-- C4. Under daily backfill policy YEAR with today = 2024-03-15 and an empty
store, `createDailyNote` creates exactly 75 artifacts: one per day of January
(31) and February (29, leap year) and March 1–15, in order, and none for
April through December. -/
theorem C4_scenarioA_year_backfill_creates_75 :
    ((createDailyNote envA stdSettings st0).2.vault.files.map
        (fun f => f.path))
      = ((List.range' 1 31).map (fun d => dayPathA 1 d))
        ++ ((List.range' 1 29).map (fun d => dayPathA 2 d))
        ++ ((List.range' 1 15).map (fun d => dayPathA 3 d))
    ∧ (createDailyNote envA stdSettings st0).2.vault.files.length = 75 := by
  constructor
  · decide
  · decide

/-- C3. Under daily backfill policy NONE, no artifact is created for any day
other than today — in particular none for past days even when missing — and
in Scenario B (today 2024-03-15, empty store) exactly one artifact is
created, the one for 2024-03-15. -/
theorem C3_policy_none_only_today :
    (∀ (env : Env) (s : Settings) (st : St), StdFmt s →
      s.dailyNotesBackfill = .NONE →
      ∀ f ∈ (createDailyNote env s st).2.vault.files,
        f ∈ st.vault.files
        ∨ f.path = dailyPathFor s env.now.year env.now.month env.now.day)
    ∧ ((createDailyNote envA sNone st0).2.vault.files.map (fun f => f.path))
        = [dailyPathFor sNone 2024 3 15] := by
  constructor
  · intro env s st hstd hnone f hf
    rcases (createDailyNote_spec env s st).2 f hf with hin |
      ⟨mN, hlt, hle, hlbl, d, hd1, hd2, hpath, hcap, hnonele⟩
    · exact Or.inl hin
    · right
      have hY : yearNumOf env s = env.now.year := yearNumOf_std hstd
      have hlblOrig : fmt (mkMoment (yearNumOf env s) (mN + 1) 1) s.monthFormat
          = fmt env.now s.monthFormat := hlbl (Or.inr hnone)
      have hlbl' := hlblOrig
      rw [fmt_month_std hstd, fmt_month_std hstd] at hlbl'
      have hmm : (mkMoment (yearNumOf env s) (mN + 1) 1).month = mN + 1 := rfl
      rw [hmm] at hlbl'
      have hm : mN + 1 = env.now.month := pad2_injective hlbl'
      have hcap' := hcap hlblOrig
      have hge := hnonele hnone
      have hd : d = env.now.day := by omega
      rw [hpath, hY, hm, hd]
  · decide

/-- C1 counterexample. With the configured month format `DD` (so the month
label of the first of the month differs from today's label) and policy YEAR,
`createDailyNote` on 2024-01-02 creates the artifact for 2024-01-03 — a
period strictly after "now" — so the claim as stated fails. -/
theorem C1_counterexample_day_dependent_month_format :
    dailyPathFor sCx 2024 1 3 ∈ filePaths (createDailyNote envCx sCx st0).2
    ∧ filePaths st0 = []
    ∧ envCx.now.year = 2024 ∧ envCx.now.month = 1 ∧ envCx.now.day = 2
    ∧ sCx.dailyNotesBackfill = .YEAR := by
  refine ⟨by decide, by decide, rfl, rfl, rfl, rfl⟩

/-- C1 amended. Provided the configured year format renders the current year
faithfully and the month label of the first of the current month equals
today's month label (true for day-independent month formats), no artifact is
created for a period strictly after "now", regardless of backfill policy:
every file `createDailyNote` appends is for a day (m, d) with m before or
equal to the current month and, in the current month, d at most today; every
file `createMonthlyNote` appends is for a month at most the current one. -/
theorem C1_future_exclusion_amended :
    ∀ (env : Env) (s : Settings) (st : St),
      yearNumOf env s = env.now.year →
      1 ≤ env.now.month →
      fmt (mkMoment env.now.year env.now.month 1) s.monthFormat
        = fmt env.now s.monthFormat →
      (∀ f ∈ (createDailyNote env s st).2.vault.files,
        f ∈ st.vault.files
        ∨ ∃ m d, 1 ≤ m ∧ m ≤ env.now.month
            ∧ f.path = dailyPathFor s env.now.year m d
            ∧ (m = env.now.month → d ≤ env.now.day))
      ∧ (∀ f ∈ (createMonthlyNote env s st).2.vault.files,
        f ∈ st.vault.files
        ∨ ∃ m, 1 ≤ m ∧ m ≤ env.now.month
            ∧ f.path = monthlyPathFor s env.now.year m) := by
  intro env s st hY h1 hM
  have h0 : env.now.month0 = env.now.month - 1 := rfl
  constructor
  · intro f hf
    rcases (createDailyNote_spec env s st).2 f hf with hin |
      ⟨mN, _, hle, _, d, hd1, hd2, hpath, hcap, _⟩
    · exact Or.inl hin
    · right
      refine ⟨mN + 1, d, by omega, by omega, by rw [hpath, hY], ?_⟩
      intro hm
      apply hcap
      rw [hY, hm]
      exact hM
  · intro f hf
    rcases (createMonthlyNote_spec env s st).2 f hf with hin |
      ⟨mN, _, hle, _, _, hpath⟩
    · exact Or.inl hin
    · exact Or.inr ⟨mN + 1, by omega, by omega, by rw [hpath, hY]⟩

/-- Witness for C1: at the Scenario B configuration all three hypotheses hold
and the first artifact created on 2024-03-15 is for a non-future period. -/
theorem C1_future_exclusion_amended_witness :
    (createDailyNote envA sNone st0).2.vault.files.headI
        ∈ st0.vault.files
      ∨ ∃ m d, 1 ≤ m ∧ m ≤ envA.now.month
          ∧ ((createDailyNote envA sNone st0).2.vault.files.headI).path
              = dailyPathFor sNone envA.now.year m d
          ∧ (m = envA.now.month → d ≤ envA.now.day) :=
  (C1_future_exclusion_amended envA sNone st0 (by decide) (by decide)
    (by decide)).1
    ((createDailyNote envA sNone st0).2.vault.files.headI) (by decide)

/-- Witness for C3: the general NONE-policy statement applied at Scenario B. -/
theorem C3_policy_none_only_today_witness :
    (createDailyNote envA sNone st0).2.vault.files.headI ∈ st0.vault.files
    ∨ ((createDailyNote envA sNone st0).2.vault.files.headI).path
        = dailyPathFor sNone envA.now.year envA.now.month envA.now.day :=
  C3_policy_none_only_today.1 envA sNone st0 (by decide) rfl
    ((createDailyNote envA sNone st0).2.vault.files.headI) (by decide)

/-- C5 counterexample. Under monthly backfill policy YEAR on 2024-03-15 with
an empty store, `createMonthlyNote` creates the January artifact — a month
other than the current one — so "YEAR is treated as limit to current month"
fails on the code. -/
theorem C5_counterexample_year_backfills_january :
    monthlyPathFor sM5 2024 1 ∈ filePaths (createMonthlyNote envA sM5 st0).2
    ∧ filePaths st0 = []
    ∧ envA.now.month = 3
    ∧ sM5.monthlyNotesBackfill = .YEAR := by
  refine ⟨by decide, by decide, rfl, rfl⟩

/-- C5 amended. For monthly note generation it is the non-YEAR policies that
are limited to the current month: under NONE or MONTH every appended file is
the current month's artifact, while under YEAR `createMonthlyNote` backfills
the earlier months of the current year (on 2024-03-15 with an empty store it
creates January, February and March). -/
theorem C5_monthly_year_backfills_whole_year :
    (∀ (env : Env) (s : Settings) (st : St), StdFmt s →
      s.monthlyNotesBackfill ≠ .YEAR →
      ∀ f ∈ (createMonthlyNote env s st).2.vault.files,
        f ∈ st.vault.files
        ∨ f.path = monthlyPathFor s env.now.year env.now.month)
    ∧ filePaths (createMonthlyNote envA sM5 st0).2
        = [monthlyPathFor sM5 2024 1, monthlyPathFor sM5 2024 2,
           monthlyPathFor sM5 2024 3] := by
  constructor
  · intro env s st hstd hne f hf
    rcases (createMonthlyNote_spec env s st).2 f hf with hin |
      ⟨mN, _, _, hlbl, _, hpath⟩
    · exact Or.inl hin
    · right
      have hY : yearNumOf env s = env.now.year := yearNumOf_std hstd
      have hlbl' := hlbl hne
      rw [fmt_month_std hstd, fmt_month_std hstd] at hlbl'
      have hmm : (mkMoment (yearNumOf env s) (mN + 1)
          s.monthlyNotesDayOfMonth).month = mN + 1 := rfl
      rw [hmm] at hlbl'
      have hm : mN + 1 = env.now.month := pad2_injective hlbl'
      rw [hpath, hY, hm]
  · decide

/-- Witness for C5 (amended): the non-YEAR statement applied under policy
MONTH at 2024-03-15. -/
theorem C5_monthly_year_backfills_whole_year_witness :
    (createMonthlyNote envA sMonth st0).2.vault.files.headI
        ∈ st0.vault.files
    ∨ ((createMonthlyNote envA sMonth st0).2.vault.files.headI).path
        = monthlyPathFor sMonth envA.now.year envA.now.month :=
  C5_monthly_year_backfills_whole_year.1 envA sMonth st0 (by decide)
    (by decide)
    ((createMonthlyNote envA sMonth st0).2.vault.files.headI) (by decide)

/-- Every accumulated prefix of the cascade ends up existing as a folder,
or its creation was rejected and reported, or a file already occupies its
path — independently of what happened to the earlier prefixes. -/
theorem cascadeGo_covers (nfp : String) : ∀ (segs : List String)
    (prev : String) (st : St) (i : Nat), i < segs.length →
    ((segs.take (i + 1)).foldl pjoin prev
        ∈ (cascadeGo nfp segs prev st).vault.folders
     ∨ ((segs.take (i + 1)).foldl pjoin prev ∈ st.vault.failFolders
        ∧ ("Error creating folder, " ++ (segs.take (i + 1)).foldl pjoin prev
            ++ " for " ++ nfp) ∈ (cascadeGo nfp segs prev st).notices)
     ∨ (∃ f ∈ st.vault.files,
          f.path = (segs.take (i + 1)).foldl pjoin prev)) := by
  intro segs
  induction segs with
  | nil => intro prev st i hi; simp at hi
  | cons seg rest ih =>
    intro prev st i hi
    have hstep := cascadeStep_spec nfp (pjoin prev seg) st
    have hrest := cascadeGo_spec nfp rest (pjoin prev seg)
      (cascadeStep nfp (pjoin prev seg) st)
    cases i with
    | zero =>
      have hp : ((seg :: rest).take 1).foldl pjoin prev = pjoin prev seg := rfl
      rw [cascadeGo, hp]
      rcases hstep.2.2 with h | h | h
      · exact Or.inl (hrest.1.vext.folders_sub _ h)
      · exact Or.inr (Or.inl ⟨h.1, hrest.1.mem_notices h.2⟩)
      · exact Or.inr (Or.inr h)
    | succ j =>
      have hp : ((seg :: rest).take (j + 1 + 1)).foldl pjoin prev
          = (rest.take (j + 1)).foldl pjoin (pjoin prev seg) := rfl
      rw [cascadeGo, hp]
      have hj : j < rest.length := by simpa using hi
      rcases ih (pjoin prev seg) (cascadeStep nfp (pjoin prev seg) st) j hj
        with h | h | h
      · exact Or.inl h
      · refine Or.inr (Or.inl ⟨?_, h.2⟩)
        rw [← hstep.1.vext.ff_eq]
        exact h.1
      · obtain ⟨f, hf, hfp⟩ := h
        rw [hstep.2.1] at hf
        exact Or.inr (Or.inr ⟨f, hf, hfp⟩)

/-- C7. The cascade walks the folder path segments root-to-leaf with the
accumulated path prefix; every prefix is attempted: it ends up existing as a
folder, or the store's rejection of it was reported on the notification
channel (non-fatal — the statement holds for every index regardless of
earlier failures), or a file already occupied its path. -/
theorem C7_cascade_reports_and_continues :
    ∀ (nfp : String) (segs : List String) (st : St) (i : Nat),
      i < segs.length →
      ((segs.take (i + 1)).foldl pjoin ""
          ∈ (cascadeGo nfp segs "" st).vault.folders
       ∨ ((segs.take (i + 1)).foldl pjoin "" ∈ st.vault.failFolders
          ∧ ("Error creating folder, " ++ (segs.take (i + 1)).foldl pjoin ""
              ++ " for " ++ nfp) ∈ (cascadeGo nfp segs "" st).notices)
       ∨ (∃ f ∈ st.vault.files,
            f.path = (segs.take (i + 1)).foldl pjoin "")) :=
  fun nfp segs st i hi => cascadeGo_covers nfp segs "" st i hi

/-- Witness for C7: with segments `a/b/c` and the store rejecting `a/b`, the
middle prefix is reported and the deeper prefix `a/b/c` is still attempted. -/
theorem C7_cascade_reports_and_continues_witness :
    ((["a", "b", "c"].take 2).foldl pjoin "" ∈ (cascadeGo "nf" ["a", "b", "c"] "" stC7).vault.folders
      ∨ ((["a", "b", "c"].take 2).foldl pjoin "" ∈ stC7.vault.failFolders
          ∧ ("Error creating folder, " ++ (["a", "b", "c"].take 2).foldl pjoin "" ++ " for " ++ "nf")
              ∈ (cascadeGo "nf" ["a", "b", "c"] "" stC7).notices)
      ∨ (∃ f ∈ stC7.vault.files, f.path = (["a", "b", "c"].take 2).foldl pjoin ""))
    ∧ ((["a", "b", "c"].take 3).foldl pjoin "" ∈ (cascadeGo "nf" ["a", "b", "c"] "" stC7).vault.folders
      ∨ ((["a", "b", "c"].take 3).foldl pjoin "" ∈ stC7.vault.failFolders
          ∧ ("Error creating folder, " ++ (["a", "b", "c"].take 3).foldl pjoin "" ++ " for " ++ "nf")
              ∈ (cascadeGo "nf" ["a", "b", "c"] "" stC7).notices)
      ∨ (∃ f ∈ stC7.vault.files, f.path = (["a", "b", "c"].take 3).foldl pjoin "")) :=
  ⟨C7_cascade_reports_and_continues "nf" ["a", "b", "c"] stC7 1 (by decide),
   C7_cascade_reports_and_continues "nf" ["a", "b", "c"] stC7 2 (by decide)⟩

/-- C8. With date templating enabled and the date token present in the
template, the date token is replaced with the formatted `createdDate` before
the external variable-substitution engine runs: the rendered content is the
engine applied to the already-date-substituted template, and the file a
successful `createNewFile` appends carries exactly that content. -/
theorem C8_date_token_replaced_before_engine :
    ∀ (env : Env) (s : Settings) (cd : Moment) (p tpl : String)
      (fif : List TFile) (st : St),
      s.shouldTemplateDate = true →
      jsIncludes tpl s.templateDateToken = true →
      (∀ n, renderContent env s cd tpl n
          = env.replaceVars
              (jsReplaceFirst tpl s.templateDateToken
                (fmt cd s.templateDateFormat)) n)
      ∧ ((fif.find? (labelMatch (jsTrim (firstSeg
            (pbasename (normPath s p)) '-')))) = none →
          (createNewFile env s cd p tpl fif st).1 = .ok (normPath s p) →
          (createNewFile env s cd p tpl fif st).2.vault.files
            = st.vault.files
              ++ [mkTFile (normPath s p)
                  (env.replaceVars
                    (jsReplaceFirst tpl s.templateDateToken
                      (fmt cd s.templateDateFormat))
                    (fileNameNoExtension (normPath s p)))]) := by
  intro env s cd p tpl fif st hstd hinc
  have hrc : ∀ n, renderContent env s cd tpl n
      = env.replaceVars (jsReplaceFirst tpl s.templateDateToken
          (fmt cd s.templateDateFormat)) n := by
    intro n
    unfold renderContent
    rw [hstd, hinc]
    simp
  refine ⟨hrc, ?_⟩
  intro hfind hok
  have hens := ensureFolders_spec (normPath s p)
    (folderPathOf (normPath s p)) st
  simp only [createNewFile] at hok ⊢
  simp only [hfind] at hok ⊢
  cases hc : vaultCreate
      (ensureFolders (normPath s p) (folderPathOf (normPath s p)) st).vault
      (normPath s p)
      (renderContent env s cd tpl (fileNameNoExtension (normPath s p))) with
  | error e =>
    rw [hc] at hok
    simp at hok
  | ok v =>
    have hv := vaultCreate_ok hc
    simp only [hc]
    rw [hv]
    simp only []
    rw [hens.2, hrc]

/-- Witness for C8: with the date token present, rendering a template equals
the engine applied to the date-substituted template. -/
theorem C8_date_token_replaced_before_engine_witness :
    renderContent envA sC8 ⟨2024, 3, 15, 600⟩
        ("Date: \x7b\x7bdate\x7d\x7d End") "ctx"
      = envA.replaceVars
          (jsReplaceFirst ("Date: \x7b\x7bdate\x7d\x7d End")
            sC8.templateDateToken
            (fmt (⟨2024, 3, 15, 600⟩ : Moment) sC8.templateDateFormat))
          "ctx" :=
  (C8_date_token_replaced_before_engine envA sC8 ⟨2024, 3, 15, 600⟩ "x"
    ("Date: \x7b\x7bdate\x7d\x7d End") [] st0 rfl (by decide)).1 "ctx"

/-- C9. When the candidate day is today (same `YYYY-MM-DD` rendering) and the
prefer-latest option is enabled, the day body calls the file materializer
with the timestamp `now + 1 minute` while the target path is still rendered
from the unshifted day date — and every artifact the body appends has the
unshifted day's path. -/
theorem C9_prefer_latest_shifts_only_timestamp :
    ∀ (env : Env) (s : Settings) (tpl : String) (Y mN : Nat)
      (cu nowLbl : String) (fif : List TFile) (st : St) (d : Nat),
      s.useTodayForLatestNote = true →
      (fmt env.now ymdFmt == fmt (mkMoment Y (mN + 1) d) ymdFmt) = true →
      ¬(cu = nowLbl ∧ env.now.day < d) →
      fif.any (labelMatch (fmt (mkMoment Y (mN + 1) d) s.dayFormat)) = false →
      ¬(s.dailyNotesBackfill = .NONE ∧ d < env.now.day) →
      (processDay env s tpl Y mN cu nowLbl fif st d
        = createNewFileCaught env s (addOneMinute env.now)
            (fmt (mkMoment Y (mN + 1) d) (dailyFileFormat s)) tpl fif st)
      ∧ (∀ f ∈ (processDay env s tpl Y mN cu nowLbl fif st d).vault.files,
          f ∈ st.vault.files ∨ f.path = dailyPathFor s Y (mN + 1) d) := by
  intro env s tpl Y mN cu nowLbl fif st d huse hymd h1 h2 h3
  constructor
  · simp only [processDay]
    split_ifs with g1 g2 g3 g4
    · exact absurd g1 h1
    · exact absurd g2 (by simp [h2])
    · exact absurd g3 h3
    · rfl
    · exact absurd (by rw [huse, hymd]; rfl) g4
  · intro f hf
    rcases (processDay_spec env s tpl Y mN cu nowLbl fif st d).2 with
      ⟨_, heq⟩ | ⟨_, heq⟩ | ⟨_, heq⟩ | ⟨_, _, _, hcr⟩
    · rw [heq] at hf; exact Or.inl hf
    · rw [heq] at hf; exact Or.inl hf
    · rw [heq] at hf; exact Or.inl hf
    · rcases hcr with ⟨C, hfiles⟩ | ⟨hfiles, _⟩
      · rw [hfiles] at hf
        rcases List.mem_append.1 hf with hin | hnew
        · exact Or.inl hin
        · simp only [List.mem_singleton] at hnew
          subst hnew
          exact Or.inr rfl
      · rw [hfiles] at hf; exact Or.inl hf

/-- Witness for C9: on 2024-03-15 with prefer-latest enabled, the day body
for March 15 calls the materializer with `now + 1 minute` and the path
rendered from the unshifted 2024-03-15. -/
theorem C9_prefer_latest_shifts_only_timestamp_witness :
    processDay envA sUse "" 2024 2 "03" "03" [] st0 15
      = createNewFileCaught envA sUse (addOneMinute envA.now)
          (fmt (mkMoment 2024 3 15) (dailyFileFormat sUse)) "" [] st0 :=
  (C9_prefer_latest_shifts_only_timestamp envA sUse "" 2024 2 "03" "03" []
    st0 15 rfl (by decide) (by decide) rfl (by decide)).1

/-- C10. An empty template path resolves to the empty template rather than
the not-found signal: generation proceeds, and the notes created carry the
variable expansion of the empty template; the cadence aborts (resolution
yields the not-found signal) only when a non-empty template path fails to
resolve to a file. -/
theorem C10_empty_template_path_proceeds :
    (∀ (env : Env) (s : Settings) (st : St) (b : Bool),
      (if b = true then s.dailyNotesTemplateFile
        else s.monthlyNotesTemplateFile) = "" →
      getNoteTemplateContents env s b st = (.ok (some ""), st))
    ∧ (∀ (env : Env) (s : Settings) (st : St) (b : Bool) (st' : St),
        getNoteTemplateContents env s b st = (.ok none, st') →
        (if b = true then s.dailyNotesTemplateFile
          else s.monthlyNotesTemplateFile) ≠ "")
    ∧ (∀ (env : Env) (cd : Moment) (n : String),
        renderContent env sNone cd "" n = env.replaceVars "" n)
    ∧ (filePaths (createDailyNote envA sNone st0).2
          = [dailyPathFor sNone 2024 3 15]
        ∧ (createDailyNote envA sNone st0).2.vault.files.map
              (fun f => f.content)
            = [envA.replaceVars "" "15 - Friday"]) := by
  refine ⟨?_, ?_, ?_, ?_, ?_⟩
  · intro env s st b h
    simp only [getNoteTemplateContents]
    rw [if_pos h]
  · intro env s st b st' h hc
    simp only [getNoteTemplateContents] at h
    rw [hc] at h
    simp at h
  · intro env cd n
    rfl
  · decide
  · decide

/-- Witness for C10: with the empty daily template path of Scenario B,
resolution yields the empty template unchanged-state result. -/
theorem C10_empty_template_path_proceeds_witness :
    getNoteTemplateContents envA stdSettings true st0
      = (.ok (some ""), st0) :=
  C10_empty_template_path_proceeds.1 envA stdSettings st0 true rfl

/-- The daily phase of `run` only extends the state. -/
theorem runDailyPhase_sext (env : Env) (s : Settings) (st : St) :
    SExt st (runDailyPhase env s st) := by
  unfold runDailyPhase
  split_ifs with h
  · cases hres : createDailyNote env s st with
    | mk r st' =>
      have hspec := (createDailyNote_spec env s st).1
      rw [hres] at hspec
      cases r with
      | error e => exact hspec.scomp (notify_sext _ _)
      | ok u => exact hspec
  · exact SExt.srefl _

/-- The monthly phase of `run` only extends the state. -/
theorem runMonthlyPhase_sext (env : Env) (s : Settings) (st : St) :
    SExt st (runMonthlyPhase env s st) := by
  unfold runMonthlyPhase
  split_ifs with h
  · cases hres : createMonthlyNote env s st with
    | mk r st' =>
      have hspec := (createMonthlyNote_spec env s st).1
      rw [hres] at hspec
      cases r with
      | error e => exact hspec.scomp (notify_sext _ _)
      | ok u => exact hspec
  · exact SExt.srefl _

/-- C6. No rejection escapes the orchestrator: `run` always completes to an
extension of its input state; a rejection of the daily branch is reported on
the notification channel and the monthly branch still runs; and a rejected
per-period write is reported while iteration continues with the remaining
candidates (on 2024-01-03 with the January 2 write rejected, January 1 and
January 3 are still created and the rejection is on the channel). -/
theorem C6_run_catches_every_rejection :
    (∀ (env : Env) (s : Settings) (st : St), SExt st (run env s st))
    ∧ (∀ (env : Env) (s : Settings) (st : St) (msg : String) (st1 : St),
        s.dailyNotesEnabled = true →
        createDailyNote env s st = (.error msg, st1) →
        run env s st = runMonthlyPhase env s (notify st1 msg)
        ∧ msg ∈ (run env s st).notices)
    ∧ (filePaths (createDailyNote envC6 sC6 stC6).2
          = ["2024/01/01 - Monday.md", "2024/01/03 - Wednesday.md"]
       ∧ ("Create failed: 2024/01/02 - Tuesday.md")
           ∈ (createDailyNote envC6 sC6 stC6).2.notices) := by
  refine ⟨?_, ?_, ?_, ?_⟩
  · intro env s st
    exact (runDailyPhase_sext env s st).scomp
      (runMonthlyPhase_sext env s (runDailyPhase env s st))
  · intro env s st msg st1 hen hres
    have hphase : runDailyPhase env s st = notify st1 msg := by
      unfold runDailyPhase
      rw [if_pos hen, hres]
    constructor
    · unfold run
      rw [hphase]
    · unfold run
      rw [hphase]
      exact (runMonthlyPhase_sext env s (notify st1 msg)).mem_notices
        (by simp [notify])
  · decide
  · decide

/-- Witness for C6: with the template read rejected, the daily branch's
rejection is reported and the monthly branch still runs. -/
theorem C6_run_catches_every_rejection_witness :
    run envA sT stT = runMonthlyPhase envA sT (notify stT "Read failed: T.md")
    ∧ "Read failed: T.md" ∈ (run envA sT stT).notices :=
  C6_run_catches_every_rejection.2.1 envA sT stT "Read failed: T.md" stT
    rfl rfl

theorem createWouldFail_mono {v v' : Vault} {p : String}
    (h : createWouldFail v p) (hext : VExt v v') : createWouldFail v' p := by
  rcases h with h | ⟨f, hf, hp⟩ | h
  · exact Or.inl (by rw [hext.fc_eq]; exact h)
  · exact Or.inr (Or.inl ⟨f, hext.mem_files hf, hp⟩)
  · exact Or.inr (Or.inr (hext.folders_sub _ h))

theorem isDig_ne_of_not {a b : Char} (ha : isDig a) (hb : ¬ isDig b) :
    a ≠ b := fun he => hb (he ▸ ha)

theorem str_ne_empty {a : String} {c : Char} {t : List Char}
    (h : a.toList = c :: t) : a ≠ "" := by
  intro he
  rw [he] at h
  exact List.noConfusion h

theorem pjoin_empty_left (b : String) : pjoin "" b = b := by
  unfold pjoin
  rw [if_pos rfl]

theorem pjoin_ne {a b : String} (ha : a ≠ "") (hb : b ≠ "") :
    pjoin a b = a ++ "/" ++ b := by
  unfold pjoin
  rw [if_neg ha, if_neg hb]

theorem yearLed_head (Y : Nat) (x : String) :
    ∃ c t, (pad4 Y ++ x).toList = c :: t ∧ isDig c := by
  obtain ⟨c, t, hct, hc⟩ := pad4_head Y
  exact ⟨c, t ++ x.toList, str_head_append hct x, hc⟩

theorem stripSlash_of_digit_head {p : String} {c : Char} {t : List Char}
    (hp : p.toList = c :: t) (hc : c ≠ '/') : stripSlash p = p := by
  unfold stripSlash
  rw [if_neg ?_]
  rw [jsStartsWith_false_of_head hp (by rfl : ("/" : String).toList = '/' :: []) hc]
  simp

/-- The normalized target path and the scoped filter prefix of the daily
iterator, decomposed, under the standard formats and a sane root. -/
theorem dailyPathFor_shape {s : Settings} (hstd : StdFmt s)
    (hr : RootOk s.rootFolder) (Y m d : Nat) :
    dailyPathFor s Y m d = mfPre s Y m ++ "/" ++ (dayBase Y m d ++ ".md") := by
  unfold dailyPathFor normPath
  rw [dailyRel_not_md hstd]
  simp only [Bool.false_eq_true, if_false]
  rw [dailyRel_std hstd]
  rcases hr with hr | ⟨c, t, hct, hslash, hdig⟩
  · rw [hr, jsStartsWith_empty]
    simp only [if_true]
    unfold mfPre
    rw [hr, pjoin_empty_left]
    simp only [str_append_assoc]
  · obtain ⟨dh, dt, hdh, hdigd⟩ :=
      yearLed_head Y ("/" ++ (pad2 m ++ "/" ++ dayBase Y m d) ++ ".md")
    have hshape : (pad4 Y ++ "/" ++ (pad2 m ++ "/" ++ dayBase Y m d)
        ++ ".md").toList = dh :: dt := by
      simpa [str_append_assoc] using hdh
    rw [jsStartsWith_false_of_head hshape hct (isDig_ne_of_not hdigd hdig)]
    simp only [Bool.false_eq_true, if_false]
    rw [pjoin_ne (str_ne_empty hct)
      (str_ne_empty hshape)]
    unfold mfPre
    have hne2 : pad4 Y ++ "/" ++ pad2 m ≠ "" := by
      obtain ⟨e, u, heu, _⟩ := yearLed_head Y ("/" ++ pad2 m)
      exact str_ne_empty (by simpa [str_append_assoc] using heu)
    rw [pjoin_ne (str_ne_empty hct) hne2]
    simp only [str_append_assoc]

/-- The monthly artifact path, decomposed. -/
theorem monthlyPathFor_shape {s : Settings} (hstd : StdFmt s)
    (hr : RootOk s.rootFolder) (Y m : Nat) :
    monthlyPathFor s Y m = mnPre s Y ++ "/" ++ (monthBase m ++ ".md") := by
  unfold monthlyPathFor normPath
  rw [monthlyRel_not_md hstd]
  simp only [Bool.false_eq_true, if_false]
  rw [monthlyRel_std hstd]
  rcases hr with hr | ⟨c, t, hct, hslash, hdig⟩
  · rw [hr, jsStartsWith_empty]
    simp only [if_true]
    unfold mnPre
    rw [hr, pjoin_empty_left]
    simp only [str_append_assoc]
  · obtain ⟨dh, dt, hdh, hdigd⟩ := yearLed_head Y
      ("/" ++ (s.monthlyNotesFolderName ++ "/" ++ monthBase m) ++ ".md")
    have hshape : (pad4 Y ++ "/"
        ++ (s.monthlyNotesFolderName ++ "/" ++ monthBase m)
        ++ ".md").toList = dh :: dt := by
      simpa [str_append_assoc] using hdh
    rw [jsStartsWith_false_of_head hshape hct (isDig_ne_of_not hdigd hdig)]
    simp only [Bool.false_eq_true, if_false]
    rw [pjoin_ne (str_ne_empty hct) (str_ne_empty hshape)]
    unfold mnPre
    have hne2 : pad4 Y ++ "/" ++ s.monthlyNotesFolderName ≠ "" := by
      obtain ⟨e, u, heu, _⟩ := yearLed_head Y ("/" ++ s.monthlyNotesFolderName)
      exact str_ne_empty (by simpa [str_append_assoc] using heu)
    rw [pjoin_ne (str_ne_empty hct) hne2]
    simp only [str_append_assoc]

theorem pjoin_root_head {r A : String} (hr : RootOk r)
    {c : Char} {t : List Char} (hA : A.toList = c :: t) (hc : isDig c) :
    ∃ d u, (pjoin r A).toList = d :: u ∧ d ≠ '/' := by
  rcases hr with hre | ⟨e, w, hew, hslash, _⟩
  · rw [hre, pjoin_empty_left]
    exact ⟨c, t, hA, isDig_ne_slash hc⟩
  · rw [pjoin_ne (str_ne_empty hew) (str_ne_empty hA)]
    exact ⟨e, w ++ ("/" ++ A).toList,
      by rw [str_append_assoc]; exact str_head_append hew _, hslash⟩

/-- The monthly file format rendered at an arbitrary instant, under the
standard patterns. -/
theorem fmt_monthlyFF_std {s : Settings} (h : StdFmt s) (dt : Moment) :
    fmt dt (monthlyFileFormat s)
      = pad4 dt.year ++ "/"
        ++ (s.monthlyNotesFolderName ++ "/" ++ monthBase dt.month) := by
  obtain ⟨h1, h2, h3⟩ := h
  unfold monthlyFileFormat monthBase
  rw [h1, h2]
  simp [fmt, fmtTok, str_append_empty, str_append_assoc]

/-- The scoped listing prefix of the daily iterator equals `mfPre`. -/
theorem dailyFolderPath_eq {s : Settings} (hstd : StdFmt s)
    (hr : RootOk s.rootFolder) (Y m : Nat) :
    stripSlash (pjoin s.rootFolder
      (dirname (fmt (mkMoment Y m 1) (dailyFileFormat s) ++ ".md")))
      = mfPre s Y m := by
  have hfd : fmt (mkMoment Y m 1) (dailyFileFormat s) = dailyRel s Y m 1 := rfl
  rw [hfd, dailyRel_std hstd]
  have hre : pad4 Y ++ "/" ++ (pad2 m ++ "/" ++ dayBase Y m 1) ++ ".md"
      = (pad4 Y ++ "/" ++ pad2 m) ++ "/" ++ (dayBase Y m 1 ++ ".md") := by
    simp only [str_append_assoc]
  rw [hre, dirname_append
    (noChar_append (noChar_dayBase_slash Y m 1) (by decide))]
  obtain ⟨c, t, hct, hc⟩ := yearLed_head Y ("/" ++ pad2 m)
  have hct' : (pad4 Y ++ "/" ++ pad2 m).toList = c :: t := by
    rw [str_append_assoc]; exact hct
  obtain ⟨d, u, hdu, hd⟩ := pjoin_root_head hr hct' hc
  rw [stripSlash_of_digit_head hdu hd]
  rfl

/-- The scoped listing prefix of the monthly iterator equals `mnPre`. -/
theorem monthlyFolderPath_eq {s : Settings} (hstd : StdFmt s)
    (hr : RootOk s.rootFolder) (dt : Moment) :
    stripSlash (pjoin s.rootFolder
      (dirname (fmt dt (monthlyFileFormat s) ++ ".md")))
      = mnPre s dt.year := by
  rw [fmt_monthlyFF_std hstd]
  have hre : pad4 dt.year ++ "/"
        ++ (s.monthlyNotesFolderName ++ "/" ++ monthBase dt.month) ++ ".md"
      = (pad4 dt.year ++ "/" ++ s.monthlyNotesFolderName) ++ "/"
        ++ (monthBase dt.month ++ ".md") := by
    simp only [str_append_assoc]
  rw [hre, dirname_append
    (noChar_append (noChar_monthBase_slash _) (by decide))]
  obtain ⟨c, t, hct, hc⟩ := yearLed_head dt.year
    ("/" ++ s.monthlyNotesFolderName)
  have hct' : (pad4 dt.year ++ "/" ++ s.monthlyNotesFolderName).toList
      = c :: t := by
    rw [str_append_assoc]; exact hct
  obtain ⟨d, u, hdu, hd⟩ := pjoin_root_head hr hct' hc
  rw [stripSlash_of_digit_head hdu hd]
  rfl

theorem dailyPathFor_startsWith {s : Settings} (hstd : StdFmt s)
    (hr : RootOk s.rootFolder) (Y m d : Nat) :
    jsStartsWith (dailyPathFor s Y m d) (mfPre s Y m) = true := by
  rw [dailyPathFor_shape hstd hr, str_append_assoc]
  exact jsStartsWith_append _ _

theorem dailyPathFor_basename {s : Settings} (hstd : StdFmt s)
    (hr : RootOk s.rootFolder) (Y m d : Nat) :
    obsBasename (dailyPathFor s Y m d) = dayBase Y m d := by
  rw [dailyPathFor_shape hstd hr]
  unfold obsBasename
  rw [lastSeg_append (noChar_append (noChar_dayBase_slash Y m d) (by decide))]
  exact stripExt_md (noChar_dayBase_dot Y m d)

theorem dayPart_dailyPathFor {s : Settings} (hstd : StdFmt s)
    (hr : RootOk s.rootFolder) (Y m d : Nat) :
    jsTrim (firstSeg (pbasename (dailyPathFor s Y m d)) '-') = pad2 d := by
  rw [dailyPathFor_shape hstd hr]
  unfold pbasename
  rw [lastSeg_append (noChar_append (noChar_dayBase_slash Y m d) (by decide))]
  exact label_dayBase_md Y m d

theorem labelMatch_dailyCreated {s : Settings} (hstd : StdFmt s)
    (hr : RootOk s.rootFolder) (Y m d : Nat) (C : String) :
    labelMatch (pad2 d) (mkTFile (dailyPathFor s Y m d) C) = true := by
  unfold labelMatch mkTFile
  simp only
  rw [dailyPathFor_basename hstd hr, label_dayBase]
  exact beq_self_eq_true _

theorem monthlyPathFor_startsWith {s : Settings} (hstd : StdFmt s)
    (hr : RootOk s.rootFolder) (Y m : Nat) :
    jsStartsWith (monthlyPathFor s Y m) (mnPre s Y) = true := by
  rw [monthlyPathFor_shape hstd hr, str_append_assoc]
  exact jsStartsWith_append _ _

theorem monthlyPathFor_basename {s : Settings} (hstd : StdFmt s)
    (hr : RootOk s.rootFolder) (Y m : Nat) :
    obsBasename (monthlyPathFor s Y m) = monthBase m := by
  rw [monthlyPathFor_shape hstd hr]
  unfold obsBasename
  rw [lastSeg_append (noChar_append (noChar_monthBase_slash m) (by decide))]
  exact stripExt_md (noChar_monthBase_dot m)

theorem monthPart_monthlyPathFor {s : Settings} (hstd : StdFmt s)
    (hr : RootOk s.rootFolder) (Y m : Nat) :
    jsTrim (firstSeg (pbasename (monthlyPathFor s Y m)) '-') = pad2 m := by
  rw [monthlyPathFor_shape hstd hr]
  unfold pbasename
  rw [lastSeg_append (noChar_append (noChar_monthBase_slash m) (by decide))]
  exact label_monthBase_md m

theorem labelMatch_monthlyCreated {s : Settings} (hstd : StdFmt s)
    (hr : RootOk s.rootFolder) (Y m : Nat) (C : String) :
    labelMatch (pad2 m) (mkTFile (monthlyPathFor s Y m) C) = true := by
  unfold labelMatch mkTFile
  simp only
  rw [monthlyPathFor_basename hstd hr, label_monthBase]
  exact beq_self_eq_true _

theorem monthlyPathFor_parent {s : Settings} (hstd : StdFmt s)
    (hr : RootOk s.rootFolder) (hfn : noChar '/' s.monthlyNotesFolderName)
    (Y m : Nat) :
    obsParentName (monthlyPathFor s Y m) = some s.monthlyNotesFolderName := by
  rw [monthlyPathFor_shape hstd hr]
  unfold obsParentName
  rw [dirname_append (noChar_append (noChar_monthBase_slash m) (by decide))]
  simp only
  rcases hr with hre | ⟨e, w, hew, hslash, hdig⟩
  · unfold mnPre
    rw [hre, pjoin_empty_left]
    obtain ⟨c, t, hct, hc⟩ :=
      yearLed_head Y ("/" ++ s.monthlyNotesFolderName)
    have hct' : (pad4 Y ++ "/" ++ s.monthlyNotesFolderName).toList
        = c :: t := by rw [str_append_assoc]; exact hct
    rw [if_neg (str_ne_empty hct'), lastSeg_append hfn]
  · unfold mnPre
    have hne2 : pad4 Y ++ "/" ++ s.monthlyNotesFolderName ≠ "" := by
      obtain ⟨c, t, hct, _⟩ := yearLed_head Y ("/" ++ s.monthlyNotesFolderName)
      exact str_ne_empty (by simpa [str_append_assoc] using hct)
    rw [pjoin_ne (str_ne_empty hew) hne2]
    have hres : s.rootFolder ++ "/" ++ (pad4 Y ++ "/" ++ s.monthlyNotesFolderName)
        = (s.rootFolder ++ "/" ++ pad4 Y) ++ "/" ++ s.monthlyNotesFolderName := by
      simp only [str_append_assoc]
    have hx : ((s.rootFolder ++ "/" ++ pad4 Y) ++ "/"
          ++ s.monthlyNotesFolderName).toList
        = e :: (w ++ ("/" ++ (pad4 Y
          ++ ("/" ++ s.monthlyNotesFolderName))).toList) := by
      simp only [str_append_assoc]
      exact str_head_append hew _
    rw [hres, if_neg (str_ne_empty hx), lastSeg_append hfn]

theorem parentOkB_monthlyCreated {s : Settings} (hstd : StdFmt s)
    (hr : RootOk s.rootFolder) (hfn : noChar '/' s.monthlyNotesFolderName)
    (Y m : Nat) (C : String) :
    parentOkB s (mkTFile (monthlyPathFor s Y m) C) = true := by
  unfold parentOkB mkTFile
  simp only
  rw [monthlyPathFor_parent hstd hr hfn]
  by_cases h : s.monthlyNotesFolderName = ""
  · simp [h]
  · simp [h]

/-- A write the store would reject means `createNewFile` appends nothing. -/
theorem createNewFile_files_of_wouldFail (env : Env) (s : Settings)
    (cd : Moment) (p tpl : String) (fif : List TFile) (st : St)
    (h : createWouldFail st.vault (normPath s p)) :
    (createNewFile env s cd p tpl fif st).2.vault.files = st.vault.files := by
  have hens := ensureFolders_spec (normPath s p)
    (folderPathOf (normPath s p)) st
  unfold createNewFile
  cases hfind : fif.find? (labelMatch
      (jsTrim (firstSeg (pbasename (normPath s p)) '-'))) with
  | some f0 =>
    simp only [hfind]
    exact hens.2
  | none =>
    simp only [hfind]
    cases hc : vaultCreate
        (ensureFolders (normPath s p) (folderPathOf (normPath s p)) st).vault
        (normPath s p)
        (renderContent env s cd tpl (fileNameNoExtension (normPath s p))) with
    | error e =>
      simp only [hc]
      exact hens.2
    | ok v =>
      exfalso
      unfold vaultCreate at hc
      split_ifs at hc with h1 h2
      rcases h with hfc | ⟨f, hf1, hf2⟩ | hfold
      · exact h2 (by
          rw [hens.1.vext.fc_eq]
          simp only [List.contains_eq_any_beq]
          exact List.any_eq_true.2 ⟨_, hfc, by simp⟩)
      · exact h1 (Bool.or_eq_true_iff.2 (Or.inl (List.any_eq_true.2
          ⟨f, by rw [hens.2]; exact hf1, by simpa using hf2⟩)))
      · exact h1 (Bool.or_eq_true_iff.2 (Or.inr (by
          simp only [List.contains_eq_any_beq]
          exact List.any_eq_true.2
            ⟨_, hens.1.vext.folders_sub _ hfold, by simp⟩)))

/-- A write the store would reject means the guarded per-period call leaves
the artifact list unchanged. -/
theorem createNewFileCaught_files_of_wouldFail (env : Env) (s : Settings)
    (cd : Moment) (p tpl : String) (fif : List TFile) (st : St)
    (h : createWouldFail st.vault (normPath s p)) :
    (createNewFileCaught env s cd p tpl fif st).vault.files
      = st.vault.files := by
  have hspec := createNewFile_files_of_wouldFail env s cd p tpl fif st h
  unfold createNewFileCaught
  cases hcr : createNewFile env s cd p tpl fif st with
  | mk r st2 =>
    rw [hcr] at hspec
    cases r with
    | error e => simpa [notify] using hspec
    | ok pp => exact hspec

theorem DayDone_mono {env : Env} {s : Settings} {Y mN d : Nat}
    {v v' : Vault} (h : DayDone env s Y mN d v) (hext : VExt v v') :
    DayDone env s Y mN d v' := by
  rcases h with h | h | h | ⟨f, hf, h1, h2⟩ | h
  · exact Or.inl h
  · exact Or.inr (Or.inl h)
  · exact Or.inr (Or.inr (Or.inl h))
  · exact Or.inr (Or.inr (Or.inr (Or.inl ⟨f, hext.mem_files hf, h1, h2⟩)))
  · exact Or.inr (Or.inr (Or.inr (Or.inr (createWouldFail_mono h hext))))

theorem MonthDone_mono {env : Env} {s : Settings} {Y mN : Nat}
    {v v' : Vault} (h : MonthDone env s Y mN v) (hext : VExt v v') :
    MonthDone env s Y mN v' := by
  rcases h with h | h | ⟨f, hf, h1, h2, h3⟩ | h
  · exact Or.inl h
  · exact Or.inr (Or.inl h)
  · exact Or.inr (Or.inr (Or.inl ⟨f, hext.mem_files hf, h1, h2, h3⟩))
  · exact Or.inr (Or.inr (Or.inr (createWouldFail_mono h hext)))

/-- A fold whose steps all extend the state establishes, for each processed
element, any monotone property its own step establishes. -/
theorem foldl_establish {α : Type} (step : St → α → St)
    (Done : α → Vault → Prop) (Pre : St → Prop)
    (hmono : ∀ a v v', Done a v → VExt v v' → Done a v')
    (hpres : ∀ st st', Pre st → SExt st st' → Pre st')
    (hsext : ∀ st a, SExt st (step st a))
    (hest : ∀ st a, Pre st → Done a ((step st a).vault)) :
    ∀ (l : List α) (st : St), Pre st →
      ∀ a ∈ l, Done a ((l.foldl step st).vault) := by
  intro l
  induction l with
  | nil => intro st _ a ha; exact absurd ha (List.not_mem_nil a)
  | cons b t ih =>
    intro st hpre a ha
    rw [List.foldl_cons]
    rcases List.mem_cons.1 ha with rfl | ha'
    · exact hmono a _ _ (hest st a hpre)
        (foldl_sext step t (step st a) (fun st' x _ => hsext st' x)).vext
    · exact ih (step st b) (hpres st _ hpre (hsext st b)) a ha'

/-- A fold preserves any invariant its steps preserve. -/
theorem foldl_pres_mem {α : Type} (step : St → α → St) (Inv : St → Prop) :
    ∀ (l : List α) (st : St), Inv st →
      (∀ st' a, a ∈ l → Inv st' → Inv (step st' a)) →
      Inv (l.foldl step st) := by
  intro l
  induction l with
  | nil => intro st h _; exact h
  | cons a t ih =>
    intro st h hstep
    rw [List.foldl_cons]
    exact ih _ (hstep st a (by simp) h)
      (fun st' b hb hinv => hstep st' b (by simp [hb]) hinv)

/-- One day-loop iteration leaves its own candidate day covered. -/
theorem processDay_establishes {env : Env} {s : Settings} (hstd : StdFmt s)
    (hr : RootOk s.rootFolder) (tpl : String) (Y mN : Nat)
    (fif : List TFile) (st : St) (d : Nat)
    (hfif : ∀ f ∈ fif, f ∈ st.vault.files
      ∧ jsStartsWith f.path (mfPre s Y (mN + 1)) = true) :
    DayDone env s Y mN d
      (processDay env s tpl Y mN (pad2 (mN + 1)) (pad2 env.now.month)
        fif st d).vault := by
  have hspec := processDay_spec env s tpl Y mN (pad2 (mN + 1))
    (pad2 env.now.month) fif st d
  have hlblD : fmt (mkMoment Y (mN + 1) d) s.dayFormat = pad2 d :=
    fmt_day_std hstd _
  rcases hspec.2 with ⟨hg, heq⟩ | ⟨hg, heq⟩ | ⟨hg, heq⟩ | ⟨h1, h2, h3, hcr⟩
  · rw [heq]
    exact Or.inr (Or.inl hg)
  · rw [heq]
    rw [hlblD] at hg
    obtain ⟨f, hfm, hfl⟩ := List.any_eq_true.1 hg
    exact Or.inr (Or.inr (Or.inr (Or.inl
      ⟨f, (hfif f hfm).1, (hfif f hfm).2, hfl⟩)))
  · rw [heq]
    exact Or.inr (Or.inr (Or.inl hg))
  · rcases hcr with ⟨C, hfiles⟩ | ⟨hfiles, hrest⟩
    · refine Or.inr (Or.inr (Or.inr (Or.inl
        ⟨mkTFile (dailyPathFor s Y (mN + 1) d) C, ?_, ?_, ?_⟩)))
      · rw [hfiles]
        exact List.mem_append_right _ (by simp)
      · exact dailyPathFor_startsWith hstd hr Y (mN + 1) d
      · exact labelMatch_dailyCreated hstd hr Y (mN + 1) d C
    · rcases hrest with hsome | hfc | hex | hfold
      · rw [dayPart_dailyPathFor hstd hr] at hsome
        obtain ⟨f, hfind⟩ := Option.isSome_iff_exists.1 hsome
        refine Or.inr (Or.inr (Or.inr (Or.inl ⟨f, ?_, ?_, ?_⟩)))
        · rw [hfiles]
          exact (hfif f (List.mem_of_find?_eq_some hfind)).1
        · exact (hfif f (List.mem_of_find?_eq_some hfind)).2
        · exact List.find?_some hfind
      · refine Or.inr (Or.inr (Or.inr (Or.inr (Or.inl ?_))))
        rw [hspec.1.vext.fc_eq]
        exact hfc
      · obtain ⟨f, hf1, hf2⟩ := hex
        refine Or.inr (Or.inr (Or.inr (Or.inr (Or.inr (Or.inl
          ⟨f, ?_, hf2⟩)))))
        rw [hfiles]
        exact hf1
      · exact Or.inr (Or.inr (Or.inr (Or.inr (Or.inr (Or.inr hfold)))))

/-- A covered candidate day is a no-op for the day-loop iteration (for a
month the policy restriction does not exclude). -/
theorem processDay_noop {env : Env} {s : Settings} (hstd : StdFmt s)
    (hr : RootOk s.rootFolder) (tpl : String) (Y mN : Nat)
    (fif : List TFile) (st : St) (d : Nat)
    (hfifm : ∀ f, f ∈ st.vault.files
        → jsStartsWith f.path (mfPre s Y (mN + 1)) = true → f ∈ fif)
    (hdone : DayDone env s Y mN d st.vault)
    (hpol : ¬ ((s.dailyNotesBackfill = .MONTH ∨ s.dailyNotesBackfill = .NONE)
        ∧ pad2 (mN + 1) ≠ pad2 env.now.month)) :
    (processDay env s tpl Y mN (pad2 (mN + 1)) (pad2 env.now.month)
      fif st d).vault.files = st.vault.files := by
  by_cases hwf : createWouldFail st.vault (dailyPathFor s Y (mN + 1) d)
  · simp only [processDay]
    split_ifs <;>
      first
        | rfl
        | exact createNewFileCaught_files_of_wouldFail env s _ _ tpl fif st hwf
  · have hlblD : fmt (mkMoment Y (mN + 1) d) s.dayFormat = pad2 d :=
      fmt_day_std hstd _
    have hspec := (processDay_spec env s tpl Y mN (pad2 (mN + 1))
      (pad2 env.now.month) fif st d).2
    rcases hdone with h0 | hg1 | hg3 | ⟨f, hfm, hfp, hfl⟩ | h
    · exact absurd h0 hpol
    · rcases hspec with ⟨_, heq⟩ | ⟨_, heq⟩ | ⟨_, heq⟩ | ⟨hn1, _, _, _⟩
      · rw [heq]
      · rw [heq]
      · rw [heq]
      · exact absurd hg1 hn1
    · rcases hspec with ⟨_, heq⟩ | ⟨_, heq⟩ | ⟨_, heq⟩ | ⟨_, _, hn3, _⟩
      · rw [heq]
      · rw [heq]
      · rw [heq]
      · exact absurd hg3 hn3
    · rcases hspec with ⟨_, heq⟩ | ⟨_, heq⟩ | ⟨_, heq⟩ | ⟨_, hn2, _, _⟩
      · rw [heq]
      · rw [heq]
      · rw [heq]
      · rw [hlblD] at hn2
        have hany : fif.any (labelMatch (pad2 d)) = true :=
          List.any_eq_true.2 ⟨f, hfifm f hfm hfp, hfl⟩
        rw [hn2] at hany
        exact Bool.noConfusion hany
    · exact absurd h hwf

theorem processMonth_future {env : Env} {s : Settings} (tpl : String)
    (Y : Nat) (st : St) (mN : Nat) (h : env.now.month0 < mN) :
    processMonth env s tpl Y st mN = st := by
  simp only [processMonth]
  rw [if_pos h]

/-- One month-loop iteration of the daily cadence leaves every day of a
non-future candidate month covered. -/
theorem processMonth_establishes {env : Env} {s : Settings} (hstd : StdFmt s)
    (hr : RootOk s.rootFolder) (tpl : String) (Y : Nat) (st : St) (mN : Nat)
    (hfut : ¬ env.now.month0 < mN) :
    ∀ d, 1 ≤ d → d ≤ daysInMonth Y (mN + 1) →
      DayDone env s Y mN d (processMonth env s tpl Y st mN).vault := by
  intro d hd1 hd2
  have hcu : fmt (mkMoment Y (mN + 1) 1) s.monthFormat = pad2 (mN + 1) :=
    fmt_month_std hstd _
  have hnow : fmt env.now s.monthFormat = pad2 env.now.month :=
    fmt_month_std hstd _
  by_cases hpol : (s.dailyNotesBackfill = .MONTH
      ∨ s.dailyNotesBackfill = .NONE)
      ∧ fmt (mkMoment Y (mN + 1) 1) s.monthFormat ≠ fmt env.now s.monthFormat
  · exact Or.inl ⟨hpol.1, by rw [← hcu, ← hnow]; exact hpol.2⟩
  · simp only [processMonth]
    split_ifs
    rw [hcu, hnow, dailyFolderPath_eq hstd hr]
    refine foldl_establish _ (fun d v => DayDone env s Y mN d v)
      (fun st' => ∀ f ∈ st.vault.files.filter
          (fun f => jsStartsWith f.path (mfPre s Y (mN + 1))),
        f ∈ st'.vault.files
          ∧ jsStartsWith f.path (mfPre s Y (mN + 1)) = true)
      (fun a v v' h hext => DayDone_mono h hext)
      ?_ ?_ ?_ (List.range' 1 (daysInMonth Y (mN + 1))) st ?_ d
      (List.mem_range'_1.2 ⟨hd1, by omega⟩)
    · intro sta stb hp hext f hf
      exact ⟨hext.vext.mem_files (hp f hf).1, (hp f hf).2⟩
    · intro sta a
      exact (processDay_spec env s tpl Y mN _ _ _ sta a).1
    · intro sta a hp
      exact processDay_establishes hstd hr tpl Y mN _ sta a
        (fun f hf => hp f hf)
    · intro f hf
      exact ⟨(List.mem_filter.1 hf).1, (List.mem_filter.1 hf).2⟩

/-- A month all of whose days are covered is a no-op (file-wise) for the
month-loop iteration of the daily cadence. -/
theorem processMonth_noop {env : Env} {s : Settings} (hstd : StdFmt s)
    (hr : RootOk s.rootFolder) (tpl : String) (Y : Nat) (st : St) (mN : Nat)
    (hdone : ∀ d, 1 ≤ d → d ≤ daysInMonth Y (mN + 1) →
      DayDone env s Y mN d st.vault) :
    (processMonth env s tpl Y st mN).vault.files = st.vault.files := by
  have hcu : fmt (mkMoment Y (mN + 1) 1) s.monthFormat = pad2 (mN + 1) :=
    fmt_month_std hstd _
  have hnow : fmt env.now s.monthFormat = pad2 env.now.month :=
    fmt_month_std hstd _
  simp only [processMonth]
  split_ifs with h1 h2
  · rfl
  · rfl
  · have hpol : ¬ ((s.dailyNotesBackfill = .MONTH
        ∨ s.dailyNotesBackfill = .NONE)
        ∧ pad2 (mN + 1) ≠ pad2 env.now.month) := by
      intro ⟨hp, hne⟩
      exact h2 ⟨hp, by rw [hcu, hnow]; exact hne⟩
    rw [hcu, hnow, dailyFolderPath_eq hstd hr]
    have hinv := foldl_pres_mem
      (processDay env s tpl Y mN (pad2 (mN + 1)) (pad2 env.now.month)
        (st.vault.files.filter
          (fun f => jsStartsWith f.path (mfPre s Y (mN + 1)))))
      (fun st' => st'.vault.files = st.vault.files
        ∧ VExt st.vault st'.vault)
      (List.range' 1 (daysInMonth Y (mN + 1))) st ⟨rfl, VExt.vrefl _⟩ ?_
    · exact hinv.1
    · intro st' d hd hinvs
      have hmem := List.mem_range'_1.1 hd
      constructor
      · rw [processDay_noop hstd hr tpl Y mN _ st' d ?_ ?_ hpol]
        · exact hinvs.1
        · intro f hf hp
          rw [hinvs.1] at hf
          exact List.mem_filter.2 ⟨hf, hp⟩
        · exact DayDone_mono (hdone d hmem.1 (by omega)) hinvs.2
      · exact hinvs.2.vcomp
          (processDay_spec env s tpl Y mN _ _ _ st' d).1.vext

theorem find?_append_some {α : Type} {p : α → Bool} {l1 : List α} {x : α}
    (h : l1.find? p = some x) (l2 : List α) :
    (l1 ++ l2).find? p = some x := by
  induction l1 with
  | nil => exact absurd h (by simp)
  | cons a t ih =>
    rw [List.cons_append]
    cases hp : p a
    · rw [List.find?_cons_of_neg _ (by simp [hp])] at h ⊢
      exact ih h
    · rw [List.find?_cons_of_pos _ hp] at h ⊢
      exact h

/-- Template resolution returns the same outcome against any extension of a
store in which the configured path is empty or already resolves to a file. -/
theorem getNoteTemplateContents_stable (env : Env) (s : Settings) (b : Bool)
    {st1 st2 : St} (hv : VExt st1.vault st2.vault)
    (htp : (if b then s.dailyNotesTemplateFile
        else s.monthlyNotesTemplateFile) = ""
      ∨ ∃ f ∈ st1.vault.files,
          f.path = (if b then s.dailyNotesTemplateFile
            else s.monthlyNotesTemplateFile) ++ ".md") :
    (getNoteTemplateContents env s b st2).1
      = (getNoteTemplateContents env s b st1).1 := by
  rcases htp with htp | ⟨f0, hf0, hp0⟩
  · simp only [getNoteTemplateContents]
    rw [htp]
    simp
  · simp only [getNoteTemplateContents]
    by_cases h : (if b = true then s.dailyNotesTemplateFile
        else s.monthlyNotesTemplateFile) = ""
    · rw [h]
      simp
    · rw [if_neg h, if_neg h]
      cases hF : st1.vault.files.find? (fun f => f.path
          == ((if b = true then s.dailyNotesTemplateFile
            else s.monthlyNotesTemplateFile) ++ ".md")) with
      | none =>
        exfalso
        have := List.find?_eq_none.1 hF f0 hf0
        simp [hp0] at this
      | some g =>
        have hlk1 : lookupAF st1.vault
            ((if b = true then s.dailyNotesTemplateFile
              else s.monthlyNotesTemplateFile) ++ ".md")
            = some (.file g) := by
          unfold lookupAF
          rw [hF]
        have hlk2 : lookupAF st2.vault
            ((if b = true then s.dailyNotesTemplateFile
              else s.monthlyNotesTemplateFile) ++ ".md")
            = some (.file g) := by
          unfold lookupAF
          obtain ⟨l, hl⟩ := hv.files_ext
          rw [hl, find?_append_some hF l]
        rw [hlk1, hlk2]
        dsimp only
        have hread : vaultRead st2.vault g = vaultRead st1.vault g := by
          unfold vaultRead
          rw [hv.fr_eq]
        rw [hread]
        cases vaultRead st1.vault g with
        | error e => rfl
        | ok c => rfl

/-- A daily cadence whose template resolved leaves every day of every
non-future month of the current year covered. -/
theorem createDailyNote_covers {env : Env} {s : Settings} (hstd : StdFmt s)
    (hr : RootOk s.rootFolder) (st : St) (tpl : String) (st1 : St)
    (hres : getNoteTemplateContents env s true st = (.ok (some tpl), st1)) :
    ∀ mN, mN < 12 → ¬ env.now.month0 < mN →
      ∀ d, 1 ≤ d → d ≤ daysInMonth env.now.year (mN + 1) →
        DayDone env s env.now.year mN d
          (createDailyNote env s st).2.vault := by
  intro mN hm12 hfut d hd1 hd2
  have hY : parseNatStr (fmt env.now s.yearFormat) = env.now.year := by
    rw [fmt_year_std hstd]
    exact parseNatStr_pad4 _
  unfold createDailyNote
  rw [hres]
  dsimp only
  rw [hY]
  exact foldl_establish _
    (fun mN v => ¬ env.now.month0 < mN →
      ∀ d, 1 ≤ d → d ≤ daysInMonth env.now.year (mN + 1) →
        DayDone env s env.now.year mN d v)
    (fun _ => True)
    (fun a v v' hD hext hf e h1 h2 => DayDone_mono (hD hf e h1 h2) hext)
    (fun _ _ _ _ => trivial)
    (fun st' a => (processMonth_spec env s tpl env.now.year st' a).1)
    (fun st' a _ hf => processMonth_establishes hstd hr tpl
      env.now.year st' a hf)
    (List.range 12) st1 trivial mN (List.mem_range.2 hm12) hfut d hd1 hd2

/-- A second daily cadence against any extension of both the original store
and the first cadence's result appends nothing. -/
theorem createDailyNote_noop {env : Env} {s : Settings} (hstd : StdFmt s)
    (hr : RootOk s.rootFolder) (st st2 : St)
    (htd : s.dailyNotesTemplateFile = ""
      ∨ ∃ f ∈ st.vault.files, f.path = s.dailyNotesTemplateFile ++ ".md")
    (hv1 : VExt st.vault st2.vault)
    (hv2 : VExt (createDailyNote env s st).2.vault st2.vault) :
    (createDailyNote env s st2).2.vault.files = st2.vault.files := by
  have hstab := getNoteTemplateContents_stable env s true hv1
    (by simpa using htd)
  have hvt2 := getNoteTemplateContents_vault env s true st2
  cases hres2 : getNoteTemplateContents env s true st2 with
  | mk r2 s2' =>
    rw [hres2] at hstab hvt2
    cases hres1 : getNoteTemplateContents env s true st with
    | mk r1 s1' =>
      rw [hres1] at hstab
      dsimp only at hstab
      unfold createDailyNote
      rw [hres2]
      cases r2 with
      | error e =>
        dsimp only
        rw [hvt2.1]
      | ok o =>
        cases o with
        | none =>
          dsimp only
          rw [hvt2.1]
        | some tpl =>
          dsimp only
          have hres1' : getNoteTemplateContents env s true st
              = (.ok (some tpl), s1') := by
            rw [hres1, ← hstab]
          have hcov := createDailyNote_covers hstd hr st tpl s1' hres1'
          have hY : parseNatStr (fmt env.now s.yearFormat)
              = env.now.year := by
            rw [fmt_year_std hstd]
            exact parseNatStr_pad4 _
          rw [hY]
          have hinv := foldl_pres_mem (processMonth env s tpl env.now.year)
            (fun st' => st'.vault.files = st2.vault.files
              ∧ VExt st2.vault st'.vault)
            (List.range 12) s2'
            ⟨by rw [hvt2.1], hvt2.1 ▸ VExt.vrefl _⟩ ?_
          · exact hinv.1
          · intro st' mN hmem hinv'
            by_cases hfut : env.now.month0 < mN
            · rw [processMonth_future tpl env.now.year st' mN hfut]
              exact hinv'
            · have hdone : ∀ e, 1 ≤ e →
                  e ≤ daysInMonth env.now.year (mN + 1) →
                  DayDone env s env.now.year mN e st'.vault :=
                fun e h1 h2 => DayDone_mono (DayDone_mono
                  (hcov mN (List.mem_range.1 hmem) hfut e h1 h2) hv2)
                  hinv'.2
              constructor
              · rw [processMonth_noop hstd hr tpl env.now.year st' mN hdone]
                exact hinv'.1
              · exact hinv'.2.vcomp
                  (processMonth_spec env s tpl env.now.year st' mN).1.vext

theorem runDailyPhase_vault (env : Env) (s : Settings) (st : St)
    (hen : s.dailyNotesEnabled = true) :
    (runDailyPhase env s st).vault = (createDailyNote env s st).2.vault := by
  unfold runDailyPhase
  rw [if_pos hen]
  cases hc : createDailyNote env s st with
  | mk r st' =>
    cases r with
    | ok u => rfl
    | error e => rfl

/-- A second daily phase against any extension of both the original store
and the first phase's result appends nothing. -/
theorem runDailyPhase_noop {env : Env} {s : Settings} (hstd : StdFmt s)
    (hr : RootOk s.rootFolder) (st st2 : St)
    (htd : s.dailyNotesTemplateFile = ""
      ∨ ∃ f ∈ st.vault.files, f.path = s.dailyNotesTemplateFile ++ ".md")
    (hv1 : VExt st.vault st2.vault)
    (hv2 : VExt (runDailyPhase env s st).vault st2.vault) :
    (runDailyPhase env s st2).vault.files = st2.vault.files := by
  by_cases hen : s.dailyNotesEnabled = true
  · have hv2' : VExt (createDailyNote env s st).2.vault st2.vault := by
      rw [← runDailyPhase_vault env s st hen]
      exact hv2
    have h := createDailyNote_noop hstd hr st st2 htd hv1 hv2'
    rw [runDailyPhase_vault env s st2 hen]
    exact h
  · unfold runDailyPhase
    rw [if_neg hen]

theorem processMonthly_future {env : Env} {s : Settings} (tpl : String)
    (Y : Nat) (fif : List TFile) (st : St) (mN : Nat)
    (h : env.now.month0 < mN) :
    processMonthly env s tpl Y fif st mN = st := by
  simp only [processMonthly]
  rw [if_pos h]

/-- Elements of the monthly iterator's snapshot are store files with the
folder prefix and an acceptable parent. -/
theorem monthlyFif_spec {s : Settings} (v : List TFile) (pre : String) :
    ∀ f ∈ v.filter (fun f => jsStartsWith f.path pre
        && (match f.parentName with
            | some n =>
              if n = "" then true else n == s.monthlyNotesFolderName
            | none => true)),
      f ∈ v ∧ jsStartsWith f.path pre = true ∧ parentOkB s f = true := by
  intro f hf
  have h := List.mem_filter.1 hf
  have h2 : jsStartsWith f.path pre = true ∧ parentOkB s f = true := by
    have hb := h.2
    simp only [Bool.and_eq_true] at hb
    exact hb
  exact ⟨h.1, h2.1, h2.2⟩

/-- A store file with the folder prefix and an acceptable parent is in the
monthly iterator's snapshot. -/
theorem monthlyFif_mem {s : Settings} (v : List TFile) (pre : String)
    (f : TFile) (hm : f ∈ v) (hp : jsStartsWith f.path pre = true)
    (hpar : parentOkB s f = true) :
    f ∈ v.filter (fun f => jsStartsWith f.path pre
        && (match f.parentName with
            | some n =>
              if n = "" then true else n == s.monthlyNotesFolderName
            | none => true)) :=
  List.mem_filter.2 ⟨hm, by
    simp only [Bool.and_eq_true]
    exact ⟨hp, hpar⟩⟩

/-- One month-loop iteration of the monthly cadence leaves its non-future
candidate month covered. -/
theorem processMonthly_establishes {env : Env} {s : Settings}
    (hstd : StdFmt s) (hr : RootOk s.rootFolder)
    (hfn : noChar '/' s.monthlyNotesFolderName) (tpl : String) (Y : Nat)
    (fif : List TFile) (st : St) (mN : Nat)
    (hfut : ¬ env.now.month0 < mN)
    (hfif : ∀ f ∈ fif, f ∈ st.vault.files
      ∧ jsStartsWith f.path (mnPre s Y) = true ∧ parentOkB s f = true) :
    MonthDone env s Y mN (processMonthly env s tpl Y fif st mN).vault := by
  have hcu : fmt (mkMoment Y (mN + 1) s.monthlyNotesDayOfMonth) s.monthFormat
      = pad2 (mN + 1) := fmt_month_std hstd _
  have hnow : fmt env.now s.monthFormat = pad2 env.now.month :=
    fmt_month_std hstd _
  have hspec := processMonthly_spec env s tpl Y fif st mN
  rcases hspec.2 with ⟨hg, _⟩ | ⟨hg, heq⟩ | ⟨hg, heq⟩ | ⟨hg, heq⟩
      | ⟨h1, h2, h3, h4, hcr⟩
  · exact absurd hg hfut
  · rw [heq]
    exact Or.inl ⟨hg.1, by rw [← hcu, ← hnow]; exact hg.2⟩
  · rw [heq]
    rw [hcu] at hg
    obtain ⟨f, hfm, hfl⟩ := List.any_eq_true.1 hg
    exact Or.inr (Or.inr (Or.inl ⟨f, (hfif f hfm).1, (hfif f hfm).2.1,
      (hfif f hfm).2.2, hfl⟩))
  · rw [heq]
    exact Or.inr (Or.inl hg)
  · rcases hcr with ⟨C, hfiles⟩ | ⟨hfiles, hrest⟩
    · refine Or.inr (Or.inr (Or.inl
        ⟨mkTFile (monthlyPathFor s Y (mN + 1)) C, ?_, ?_, ?_, ?_⟩))
      · rw [hfiles]
        exact List.mem_append_right _ (by simp)
      · exact monthlyPathFor_startsWith hstd hr Y (mN + 1)
      · exact parentOkB_monthlyCreated hstd hr hfn Y (mN + 1) C
      · exact labelMatch_monthlyCreated hstd hr Y (mN + 1) C
    · rcases hrest with hsome | hfc | hex | hfold
      · rw [monthPart_monthlyPathFor hstd hr] at hsome
        obtain ⟨f, hfind⟩ := Option.isSome_iff_exists.1 hsome
        refine Or.inr (Or.inr (Or.inl ⟨f, ?_,
          (hfif f (List.mem_of_find?_eq_some hfind)).2.1,
          (hfif f (List.mem_of_find?_eq_some hfind)).2.2,
          List.find?_some hfind⟩))
        rw [hfiles]
        exact (hfif f (List.mem_of_find?_eq_some hfind)).1
      · refine Or.inr (Or.inr (Or.inr (Or.inl ?_)))
        rw [hspec.1.vext.fc_eq]
        exact hfc
      · obtain ⟨f, hf1, hf2⟩ := hex
        refine Or.inr (Or.inr (Or.inr (Or.inr (Or.inl ⟨f, ?_, hf2⟩))))
        rw [hfiles]
        exact hf1
      · exact Or.inr (Or.inr (Or.inr (Or.inr (Or.inr hfold))))

/-- A covered candidate month is a no-op (file-wise) for the month-loop
iteration of the monthly cadence. -/
theorem processMonthly_noop {env : Env} {s : Settings} (hstd : StdFmt s)
    (hr : RootOk s.rootFolder) (tpl : String) (Y : Nat)
    (fif : List TFile) (st : St) (mN : Nat)
    (hfifm : ∀ f, f ∈ st.vault.files
        → jsStartsWith f.path (mnPre s Y) = true
        → parentOkB s f = true → f ∈ fif)
    (hdone : MonthDone env s Y mN st.vault) :
    (processMonthly env s tpl Y fif st mN).vault.files
      = st.vault.files := by
  by_cases hwf : createWouldFail st.vault (monthlyPathFor s Y (mN + 1))
  · simp only [processMonthly]
    split_ifs <;>
      first
        | rfl
        | exact createNewFileCaught_files_of_wouldFail env s _ _ tpl fif st
            hwf
  · have hcu : fmt (mkMoment Y (mN + 1) s.monthlyNotesDayOfMonth)
        s.monthFormat = pad2 (mN + 1) := fmt_month_std hstd _
    have hnow : fmt env.now s.monthFormat = pad2 env.now.month :=
      fmt_month_std hstd _
    have hspec := (processMonthly_spec env s tpl Y fif st mN).2
    rcases hdone with hP | hD | ⟨f, hfm, hfp, hfpar, hfl⟩ | h
    · rcases hspec with ⟨_, heq⟩ | ⟨_, heq⟩ | ⟨_, heq⟩ | ⟨_, heq⟩
          | ⟨_, hn2, _, _, _⟩
      · rw [heq]
      · rw [heq]
      · rw [heq]
      · rw [heq]
      · exact absurd ⟨hP.1, by rw [hcu, hnow]; exact hP.2⟩ hn2
    · rcases hspec with ⟨_, heq⟩ | ⟨_, heq⟩ | ⟨_, heq⟩ | ⟨_, heq⟩
          | ⟨_, _, _, hn4, _⟩
      · rw [heq]
      · rw [heq]
      · rw [heq]
      · rw [heq]
      · exact absurd hD hn4
    · rcases hspec with ⟨_, heq⟩ | ⟨_, heq⟩ | ⟨_, heq⟩ | ⟨_, heq⟩
          | ⟨_, _, hn3, _, _⟩
      · rw [heq]
      · rw [heq]
      · rw [heq]
      · rw [heq]
      · rw [hcu] at hn3
        have hany : fif.any (labelMatch (pad2 (mN + 1))) = true :=
          List.any_eq_true.2 ⟨f, hfifm f hfm hfp hfpar, hfl⟩
        rw [hn3] at hany
        exact Bool.noConfusion hany
    · exact absurd h hwf

/-- A monthly cadence whose template resolved leaves every non-future month
of the current year covered. -/
theorem createMonthlyNote_covers {env : Env} {s : Settings}
    (hstd : StdFmt s) (hr : RootOk s.rootFolder)
    (hfn : noChar '/' s.monthlyNotesFolderName) (st : St) (tpl : String)
    (st1 : St)
    (hres : getNoteTemplateContents env s false st = (.ok (some tpl), st1)) :
    ∀ mN, mN < 12 → ¬ env.now.month0 < mN →
      MonthDone env s env.now.year mN
        (createMonthlyNote env s st).2.vault := by
  intro mN hm12 hfut
  have hY : parseNatStr (fmt env.now s.yearFormat) = env.now.year := by
    rw [fmt_year_std hstd]
    exact parseNatStr_pad4 _
  unfold createMonthlyNote
  rw [hres]
  dsimp only
  rw [hY, monthlyFolderPath_eq hstd hr env.now]
  refine foldl_establish _
    (fun mN v => ¬ env.now.month0 < mN →
      MonthDone env s env.now.year mN v)
    (fun st' => ∀ f ∈ st1.vault.files.filter
        (fun f => jsStartsWith f.path (mnPre s env.now.year)
          && (match f.parentName with
              | some n =>
                if n = "" then true else n == s.monthlyNotesFolderName
              | none => true)),
      f ∈ st'.vault.files
        ∧ jsStartsWith f.path (mnPre s env.now.year) = true
        ∧ parentOkB s f = true)
    (fun a v v' hD hext hf => MonthDone_mono (hD hf) hext)
    ?_ ?_ ?_ (List.range 12) st1 ?_ mN (List.mem_range.2 hm12) hfut
  · intro sta stb hp hext f hf
    exact ⟨hext.vext.mem_files (hp f hf).1, (hp f hf).2⟩
  · intro sta a
    exact (processMonthly_spec env s tpl env.now.year _ sta a).1
  · intro sta a hp hfuta
    exact processMonthly_establishes hstd hr hfn tpl env.now.year _ sta a
      hfuta (fun f hf => hp f hf)
  · intro f hf
    exact ⟨(monthlyFif_spec _ _ f hf).1, (monthlyFif_spec _ _ f hf).2⟩

/-- A second monthly cadence against any extension of both the store it ran
on and its result appends nothing. -/
theorem createMonthlyNote_noop {env : Env} {s : Settings} (hstd : StdFmt s)
    (hr : RootOk s.rootFolder)
    (hfn : noChar '/' s.monthlyNotesFolderName) (st st2 : St)
    (htm : s.monthlyNotesTemplateFile = ""
      ∨ ∃ f ∈ st.vault.files, f.path = s.monthlyNotesTemplateFile ++ ".md")
    (hv1 : VExt st.vault st2.vault)
    (hv2 : VExt (createMonthlyNote env s st).2.vault st2.vault) :
    (createMonthlyNote env s st2).2.vault.files = st2.vault.files := by
  have hstab := getNoteTemplateContents_stable env s false hv1
    (by simpa using htm)
  have hvt2 := getNoteTemplateContents_vault env s false st2
  cases hres2 : getNoteTemplateContents env s false st2 with
  | mk r2 s2' =>
    rw [hres2] at hstab hvt2
    cases hres1 : getNoteTemplateContents env s false st with
    | mk r1 s1' =>
      rw [hres1] at hstab
      dsimp only at hstab
      unfold createMonthlyNote
      rw [hres2]
      cases r2 with
      | error e =>
        dsimp only
        rw [hvt2.1]
      | ok o =>
        cases o with
        | none =>
          dsimp only
          rw [hvt2.1]
        | some tpl =>
          dsimp only
          have hres1' : getNoteTemplateContents env s false st
              = (.ok (some tpl), s1') := by
            rw [hres1, ← hstab]
          have hcov := createMonthlyNote_covers hstd hr hfn st tpl s1'
            hres1'
          have hY : parseNatStr (fmt env.now s.yearFormat)
              = env.now.year := by
            rw [fmt_year_std hstd]
            exact parseNatStr_pad4 _
          rw [hY, monthlyFolderPath_eq hstd hr env.now]
          have hinv := foldl_pres_mem
            (processMonthly env s tpl env.now.year
              (s2'.vault.files.filter
                (fun f => jsStartsWith f.path (mnPre s env.now.year)
                  && (match f.parentName with
                      | some n =>
                        if n = "" then true
                        else n == s.monthlyNotesFolderName
                      | none => true))))
            (fun st' => st'.vault.files = st2.vault.files
              ∧ VExt st2.vault st'.vault)
            (List.range 12) s2'
            ⟨by rw [hvt2.1], hvt2.1 ▸ VExt.vrefl _⟩ ?_
          · exact hinv.1
          · intro st' mN hmem hinv'
            by_cases hfut : env.now.month0 < mN
            · rw [processMonthly_future tpl env.now.year _ st' mN hfut]
              exact hinv'
            · have hdone : MonthDone env s env.now.year mN st'.vault :=
                MonthDone_mono (MonthDone_mono
                  (hcov mN (List.mem_range.1 hmem) hfut) hv2) hinv'.2
              constructor
              · rw [processMonthly_noop hstd hr tpl env.now.year _ st' mN
                  ?_ hdone]
                · exact hinv'.1
                · intro f hfm hfp hfpar
                  rw [hinv'.1, ← hvt2.1] at hfm
                  exact monthlyFif_mem _ _ f hfm hfp hfpar
              · exact hinv'.2.vcomp
                  (processMonthly_spec env s tpl env.now.year _ st' mN).1.vext

theorem runMonthlyPhase_vault (env : Env) (s : Settings) (st : St)
    (hen : s.monthlyNotesEnabled = true) :
    (runMonthlyPhase env s st).vault
      = (createMonthlyNote env s st).2.vault := by
  unfold runMonthlyPhase
  rw [if_pos hen]
  cases hc : createMonthlyNote env s st with
  | mk r st' =>
    cases r with
    | ok u => rfl
    | error e => rfl

/-- A second monthly phase against any extension of both the store it ran on
and its result appends nothing. -/
theorem runMonthlyPhase_noop {env : Env} {s : Settings} (hstd : StdFmt s)
    (hr : RootOk s.rootFolder)
    (hfn : noChar '/' s.monthlyNotesFolderName) (st st2 : St)
    (htm : s.monthlyNotesTemplateFile = ""
      ∨ ∃ f ∈ st.vault.files, f.path = s.monthlyNotesTemplateFile ++ ".md")
    (hv1 : VExt st.vault st2.vault)
    (hv2 : VExt (runMonthlyPhase env s st).vault st2.vault) :
    (runMonthlyPhase env s st2).vault.files = st2.vault.files := by
  by_cases hen : s.monthlyNotesEnabled = true
  · have hv2' : VExt (createMonthlyNote env s st).2.vault st2.vault := by
      rw [← runMonthlyPhase_vault env s st hen]
      exact hv2
    have h := createMonthlyNote_noop hstd hr hfn st st2 htm hv1 hv2'
    rw [runMonthlyPhase_vault env s st2 hen]
    exact h
  · unfold runMonthlyPhase
    rw [if_neg hen]

/-- C2. Running the scheduler a second time against the store state left by a
first run creates no new artifacts on the second run: under the standard
`YYYY/MM/DD` formats, a root folder that is empty or starts with a character
other than `/` and digits, a monthly-notes folder name free of `/`, and
template paths that are empty or already resolve to store files, the second
run's artifact list equals the first run's — every non-future period is
covered after the first run (skipped by a guard, matched by the listing
membership test on the period's label, or bound to a path whose write the
store rejects), so the second run appends nothing. -/
theorem C2_second_run_creates_no_artifacts (env : Env) (s : Settings)
    (st : St) (hstd : StdFmt s) (hr : RootOk s.rootFolder)
    (hfn : noChar '/' s.monthlyNotesFolderName)
    (htd : s.dailyNotesTemplateFile = ""
      ∨ ∃ f ∈ st.vault.files, f.path = s.dailyNotesTemplateFile ++ ".md")
    (htm : s.monthlyNotesTemplateFile = ""
      ∨ ∃ f ∈ st.vault.files, f.path = s.monthlyNotesTemplateFile ++ ".md") :
    (run env s (run env s st)).vault.files = (run env s st).vault.files := by
  have hsd1 := runDailyPhase_sext env s st
  have hsm1 := runMonthlyPhase_sext env s (runDailyPhase env s st)
  have hsd2 := runDailyPhase_sext env s (run env s st)
  have hdaily : (runDailyPhase env s (run env s st)).vault.files
      = (run env s st).vault.files :=
    runDailyPhase_noop hstd hr st (run env s st) htd
      (hsd1.scomp hsm1).vext hsm1.vext
  have htm' : s.monthlyNotesTemplateFile = ""
      ∨ ∃ f ∈ (runDailyPhase env s st).vault.files,
          f.path = s.monthlyNotesTemplateFile ++ ".md" :=
    htm.imp id (fun ⟨f, hf, hp⟩ => ⟨f, hsd1.vext.mem_files hf, hp⟩)
  have hmonthly :
      (runMonthlyPhase env s
        (runDailyPhase env s (run env s st))).vault.files
      = (runDailyPhase env s (run env s st)).vault.files :=
    runMonthlyPhase_noop hstd hr hfn (runDailyPhase env s st)
      (runDailyPhase env s (run env s st)) htm'
      (hsm1.scomp hsd2).vext hsd2.vext
  show (runMonthlyPhase env s
      (runDailyPhase env s (run env s st))).vault.files
    = (run env s st).vault.files
  rw [hmonthly, hdaily]

/-- Witness for C2: the Scenario B configuration, run twice from the empty
store — the second run leaves the artifact list unchanged. -/
theorem C2_second_run_creates_no_artifacts_witness :
    (run envA sNone (run envA sNone st0)).vault.files
      = (run envA sNone st0).vault.files :=
  C2_second_run_creates_no_artifacts envA sNone st0 (by decide)
    (Or.inl rfl) (by decide) (Or.inl rfl) (Or.inl rfl)

end AutoJournal

